import Mathlib

/-!
# Puzzle-solver recognition pipeline

A shallow embedding of `agent/go-service/puzzle-solver/recognition.go`.

Conventions of the embedding:

* Go `int` is `Int` (no value of the pipeline comes near the 64-bit range).
* Go `float64` is `ℚ`: arithmetic and comparisons are exact, so rounding error,
  infinities and NaN are outside the model.  The literals `0.075`, `0.8`,
  `0.333`, `0.5`, `0.667`, `2.0` are the rationals they denote.
* `image.Image` is `Option Img` for an arbitrary type `Img`; `none` is Go `nil`.
* Functions, constants and types of the package that live in other files
  (`clusterHues`, `meanHue`, `diffHue`, `matchTemplateAll`, the HSV samplers,
  the coordinate mappers, every upper-case constant) are parameters: the fields
  of `Consts` and `Env`.
* The controller is a deterministic environment: every effect is appended to a
  chronological trace of `Event`s, and what the outside world answers
  (`CacheImage`, `RunTask`) is a function of the trace so far.
* Go randomises the iteration order of a map; the order used by a run is the
  field `Env.mapOrder`, an arbitrary permutation of the map's entries.
-/

namespace PuzzleSolver

/-! ## Numeric conversions -/

/-- Go conversion `int(x)` of a `float64`: truncation toward zero. -/
def toInt (x : ℚ) : Int :=
  if 0 ≤ x then ⌊x⌋ else ⌈x⌉

/-- Go `int(math.Round(x))`: the nearest integer, halves rounded away from zero. -/
def mathRound (x : ℚ) : Int :=
  if 0 ≤ x then ⌊x + 1 / 2⌋ else ⌈x - 1 / 2⌉

/-! ## Data model (lines 14-45) -/

/-- Go `ProjDesc`. -/
structure ProjDesc where
  XProjList : List Int
  YProjList : List Int
deriving DecidableEq, Repr

/-- Go `BannedBlockDesc`. -/
structure BannedBlockDesc where
  Loc : Int × Int
  RawLoc : Int × Int
deriving DecidableEq, Repr

/-- Go `LockedBlockDesc`. -/
structure LockedBlockDesc where
  Loc : Int × Int
  RawLoc : Int × Int
  Hue : Int
deriving DecidableEq, Repr

/-- Go `PuzzleDesc`. -/
structure PuzzleDesc where
  Blocks : List (Int × Int)
  Hue : Int
deriving DecidableEq, Repr

/-- Go `BoardDesc`. -/
structure BoardDesc where
  W : Int
  H : Int
  ProjDescList : List ProjDesc
  BannedBlockList : List BannedBlockDesc
  LockedBlockList : List (List LockedBlockDesc)
  PuzzleList : List PuzzleDesc
  HueList : List Int
deriving DecidableEq, Repr

/-! ## Collaborators declared outside `recognition.go` -/

/-- One template match, as `matchTemplateAll` returns it. -/
structure MatchResult where
  X : Int
  Y : Int
  CenterX : Int
  CenterY : Int
  Score : ℚ
deriving DecidableEq, Repr

/-- Go `image.Rectangle`. -/
structure Rect where
  MinX : Int
  MinY : Int
  MaxX : Int
  MaxY : Int
deriving DecidableEq, Repr

/-- Go `image.Rect(x0, y0, x1, y1)`: coordinates are swapped where needed so that the
rectangle is well formed. -/
def imageRect (x0 y0 x1 y1 : Int) : Rect :=
  { MinX := if x0 > x1 then x1 else x0
    MinY := if y0 > y1 then y1 else y0
    MaxX := if x0 > x1 then x0 else x1
    MaxY := if y0 > y1 then y0 else y1 }

/-- A hue, saturation, value triple as the samplers return it. -/
abbrev HSV := ℚ × ℚ × ℚ

/-- The package constants used by `recognition.go`; their values are declared in another
file of the package. -/
structure Consts where
  WORK_W : Int
  WORK_H : Int
  BOARD_MAX_EXTENT_ONE_SIDE : Int
  BOARD_CENTER_BLOCK_LT_X : ℚ
  BOARD_CENTER_BLOCK_LT_Y : ℚ
  BOARD_BLOCK_W : ℚ
  BOARD_BLOCK_H : ℚ
  BOARD_X_PROJ_FIGURE_H : ℚ
  BOARD_Y_PROJ_FIGURE_W : ℚ
  BOARD_PROJ_COLOR_SAT_GRT : ℚ
  BOARD_PROJ_COLOR_VAL_GRT : ℚ
  BOARD_PROJ_INIT_GAP : ℚ
  BOARD_PROJ_EACH_GAP : ℚ
  BOARD_LOCKED_COLOR_SAT_GRT : ℚ
  BOARD_LOCKED_COLOR_VAL_GRT : ℚ
  PUZZLE_CLUSTER_DIFF_GRT : Int
  PUZZLE_THUMBNAIL_START_X : ℚ
  PUZZLE_THUMBNAIL_START_Y : ℚ
  PUZZLE_THUMBNAIL_W : ℚ
  PUZZLE_THUMBNAIL_H : ℚ
  PUZZLE_THUMBNAIL_MAX_ROWS : Int
  PUZZLE_THUMBNAIL_MAX_COLS : Int
  PUZZLE_THUMBNAIL_COLOR_VAR_GRT : ℚ
  PUZZLE_THUMBNAIL_COLOR_VAR_LES : ℚ
  PUZZLE_PREVIEW_MV_X : ℚ
  PUZZLE_PREVIEW_MV_Y : ℚ
  PUZZLE_MAX_EXTENT_ONE_SIDE : Int
  PUZZLE_W : ℚ
  PUZZLE_H : ℚ
  PUZZLE_COLOR_VAR_GRT : ℚ
  PUZZLE_COLOR_SAT_GRT : ℚ
  PUZZLE_COLOR_VAL_GRT : ℚ
  TAB_1_X : ℚ
  TAB_2_X : ℚ
  TAB_Y : ℚ
  TAB_W : ℚ
  TAB_H : ℚ

/-- One effect issued through the controller or the task context. -/
inductive Event where
  | touchUp (delay : Int)
  | touchDown (contact x y delay : Int)
  | touchMove (contact x y delay : Int)
  | screencap
  | clickKey (key : Int)
  | sleep (ms : Int)
  | runTask (name : String) (target : List Int)
deriving DecidableEq, Repr

/-- The iteration order of a Go map: some permutation of its entries.  One order function
serves both score maps of `getPossibleBoardSize`; nothing is lost, since the dimension
selected does not depend on the order (`estimateAxis_order_irrelevant`). -/
structure MapOrder where
  order : List (Int × ℚ) → List (Int × ℚ)
  perm : ∀ l, (order l).Perm l

/-- The order in which the entries were inserted. -/
def MapOrder.insertion : MapOrder :=
  { order := fun l => l
    perm := fun l => List.Perm.refl l }

/-- The reverse of the insertion order. -/
def MapOrder.reversed : MapOrder :=
  { order := fun l => l.reverse
    perm := fun l => List.reverse_perm l }

/-- The functions `recognition.go` calls but does not define, and the answers of the outside
world.  `cacheImage tr` is what `ctrl.CacheImage()` returns after the events `tr`;
`runTask tr` tells whether `ctx.RunTask` returned a non-nil detail after the events `tr`. -/
structure Env (Img : Type) where
  clusterHues : List Int → Int → List (List Int)
  meanHue : List Int → Int
  diffHue : Int → Int → Int
  getSVGBImage : Option Img → Option Img
  matchTemplateAll : Option Img → String → List Int → Int → List MatchResult
  getPixelHSV : Option Img → Int → Int → Int → Int → HSV
  getAreaVariance : Option Img → Rect → ℚ
  getAreaMeanHSV : Option Img → Rect → HSV
  getAreaMidHSV : Option Img → Rect → HSV
  convertLTCoordToBoardCoord : Int → Int → Int → Int → Int × Int
  convertBoardCoordToLTCoord : Int → Int → Int → Int → Int × Int
  mapOrder : MapOrder
  cacheImage : List Event → Option Img
  runTask : List Event → Bool

variable {Img : Type}

/-! ## Hue disambiguation (lines 49-64) -/

/-- Go `getPossibleHues`: the hues of the puzzles are clustered with tolerance
`PUZZLE_CLUSTER_DIFF_GRT`; every non-empty cluster contributes its `meanHue`. -/
def getPossibleHues (c : Consts) (env : Env Img) (puzzles : List PuzzleDesc) : List Int :=
  let hues := puzzles.map (fun p => p.Hue)
  let clusters := env.clusterHues hues c.PUZZLE_CLUSTER_DIFF_GRT
  (clusters.filter (fun members => members.length ≠ 0)).map env.meanHue

/-! ## Board geometry (lines 66-136) -/

/-- The local `biasFactor := 0.075`. -/
def biasFactor : ℚ := 75 / 1000

/-- The local `cropFactor := 0.8`. -/
def cropFactor : ℚ := 8 / 10

/-- The expected marker coordinate for dimension `d` (lines 80-81 and 110-111):
`anchor - float64(d-1)/2.0*block - biasFactor*block`. -/
def expectedPos (anchor block : ℚ) (d : Int) : ℚ :=
  anchor - ((d - 1 : Int) : ℚ) / 2 * block - biasFactor * block

/-- The inner loop over the matches (lines 82-88 and 112-118): the score accumulated for
dimension `d`.  `centre` is `CenterY` for the height and `CenterX` for the width. -/
def axisScore (anchor block : ℚ) (centre : MatchResult → Int) (ms : List MatchResult)
    (d : Int) : ℚ :=
  ms.foldl
    (fun score m =>
      let delta := expectedPos anchor block d - (centre m : ℚ)
      if 0 < delta ∧ delta < block * cropFactor then score + m.Score * m.Score else score)
    0

/-- The values of the loop variable of `for h := 2; h <= 2*maxExtent+1; h++`. -/
def candidates (maxExtent : Int) : List Int :=
  (List.range (2 * maxExtent).toNat).map (fun (i : Nat) => (2 + (i : Int)))

/-- The entries of the map `hScores` (`wScores`) once the loop of lines 79-90 (109-120) has
run, in insertion order. -/
def scoreEntries (maxExtent : Int) (anchor block : ℚ) (centre : MatchResult → Int)
    (ms : List MatchResult) : List (Int × ℚ) :=
  (candidates maxExtent).map (fun d => (d, axisScore anchor block centre ms d))

/-- One step of the selection loop (lines 92-98 and 122-128) on the pair `(maxS, best)`. -/
def pickStep (acc : ℚ × Int) (e : Int × ℚ) : ℚ × Int :=
  if e.2 > acc.1 then (e.2, e.1)
  else if e.2 = acc.1 ∧ e.1 > acc.2 then (acc.1, e.1)
  else acc

/-- The selection loop over the map entries in the order `entries`, from `maxS := -1.0` and
`best := 0`; the result is `best`. -/
def pickBest (entries : List (Int × ℚ)) : Int :=
  (entries.foldl pickStep (-1, 0)).2

/-- The estimate of one dimension (lines 77-103 for the height, 107-133 for the width): `0`
when there is no match, otherwise the dimension selected from the score map. -/
def estimateAxis (c : Consts) (env : Env Img) (anchor block : ℚ) (centre : MatchResult → Int)
    (ms : List MatchResult) : Int :=
  if ms.length > 0 then
    pickBest (env.mapOrder.order
      (scoreEntries c.BOARD_MAX_EXTENT_ONE_SIDE anchor block centre ms))
  else 0

/-- The matches of the column-count marker in the upper half of the frame (line 76). -/
def xMatchesOf (c : Consts) (env : Env Img) (img : Option Img) : List MatchResult :=
  env.matchTemplateAll (env.getSVGBImage img) "PuzzleSolver/ProjX_SVGB.png"
    [0, 0, c.WORK_W, toInt ((c.WORK_H : ℚ) * (1 / 2))] 16

/-- The matches of the row-count marker in the left half of the frame (line 106). -/
def yMatchesOf (c : Consts) (env : Env Img) (img : Option Img) : List MatchResult :=
  env.matchTemplateAll (env.getSVGBImage img) "PuzzleSolver/ProjY_SVGB.png"
    [0, 0, toInt ((c.WORK_W : ℚ) * (1 / 2)), c.WORK_H] 16

/-- Go `getPossibleBoardSize`: the pair `(bestW, bestH)`. -/
def getPossibleBoardSize (c : Consts) (env : Env Img) (img : Option Img) : Int × Int :=
  let bestH := estimateAxis c env c.BOARD_CENTER_BLOCK_LT_Y c.BOARD_BLOCK_H
    (fun m => m.CenterY) (xMatchesOf c env img)
  let bestW := estimateAxis c env c.BOARD_CENTER_BLOCK_LT_X c.BOARD_BLOCK_W
    (fun m => m.CenterX) (yMatchesOf c env img)
  (bestW, bestH)

/-! ## Banned blocks (lines 138-154, 458-470) -/

/-- Go `convertBlockLtToBannedBlockDesc`. -/
def convertBlockLtToBannedBlockDesc (env : Env Img) (boardW boardH : Int) :
    List (Int × Int) → List BannedBlockDesc
  | [] => []
  | b :: blocks =>
    let id := env.convertLTCoordToBoardCoord b.1 b.2 boardW boardH
    if id.1 ≥ 0 ∧ id.1 < boardW ∧ id.2 ≥ 0 ∧ id.2 < boardH then
      { Loc := (id.1, id.2), RawLoc := b } ::
        convertBlockLtToBannedBlockDesc env boardW boardH blocks
    else convertBlockLtToBannedBlockDesc env boardW boardH blocks

/-- Go `getBannedBlocksLTCoord`. -/
def getBannedBlocksLTCoord (c : Consts) (env : Env Img) (img : Option Img) : List (Int × Int) :=
  (env.matchTemplateAll img "PuzzleSolver/BlockBanned.png"
    [toInt (2 / 10 * (c.WORK_W : ℚ)), toInt (2 / 10 * (c.WORK_H : ℚ)),
      toInt (6 / 10 * (c.WORK_W : ℚ)), toInt (6 / 10 * (c.WORK_H : ℚ))] 64).map
    (fun m => (m.X, m.Y))

/-! ## Projection decoding (lines 156-257) -/

/-- The local `samplingPoints := []float64{0.333, 0.5, 0.667}`. -/
def samplingPoints : List ℚ := [333 / 1000, 1 / 2, 667 / 1000]

/-- The width `w` and height `h` of the figure rectangle (lines 202-209). -/
def figureSize (c : Consts) (axis : String) : Int × Int :=
  if axis = "X" then (toInt c.BOARD_BLOCK_W, toInt c.BOARD_X_PROJ_FIGURE_H)
  else (toInt c.BOARD_Y_PROJ_FIGURE_W, toInt c.BOARD_BLOCK_H)

/-- The number of scan steps: `h` for axis "X" (line 214), `w` otherwise (line 233). -/
def scanSteps (c : Consts) (axis : String) : Nat :=
  if axis = "X" then (figureSize c axis).2.toNat else (figureSize c axis).1.toNat

/-- The flag `valid` of scan step `i` (lines 215-225 and 234-244): some sampling point of the
step has saturation and value above the thresholds. -/
def stepMarked (c : Consts) (env : Env Img) (img : Option Img) (ltX ltY : Int) (axis : String)
    (targetHue : Int) (i : Nat) : Bool :=
  let w := (figureSize c axis).1
  let h := (figureSize c axis).2
  if axis = "X" then
    let y := ltY + h - 1 - i
    samplingPoints.any (fun p =>
      let x := ltX + toInt ((w : ℚ) * p)
      let hsv := env.getPixelHSV img x y targetHue c.PUZZLE_CLUSTER_DIFF_GRT
      decide (hsv.2.1 > c.BOARD_PROJ_COLOR_SAT_GRT ∧ hsv.2.2 > c.BOARD_PROJ_COLOR_VAL_GRT))
  else
    let x := ltX + w - 1 - i
    samplingPoints.any (fun p =>
      let y := ltY + toInt ((h : ℚ) * p)
      let hsv := env.getPixelHSV img x y targetHue c.PUZZLE_CLUSTER_DIFF_GRT
      decide (hsv.2.1 > c.BOARD_PROJ_COLOR_SAT_GRT ∧ hsv.2.2 > c.BOARD_PROJ_COLOR_VAL_GRT))

/-- The scan loop (lines 214-229 and 233-248) over the steps `0, ..., n-1` with the marks
`marked`: the final value of `maxOffset`. -/
def scanMaxOffset (marked : Nat → Bool) (n : Nat) : Int :=
  (List.range n).foldl (fun (maxOffset : Int) (i : Nat) => if marked i then (i : Int) + 1 else maxOffset) 0

/-- The conversion of lines 251-256: `int(math.Round((maxOffset - INIT_GAP) / EACH_GAP))`,
replaced by `0` when negative.  A zero `BOARD_PROJ_EACH_GAP` makes Go divide by zero, which
the exact model does not represent. -/
def decodeOffset (c : Consts) (maxOffset : Int) : Int :=
  let val := ((maxOffset : ℚ) - c.BOARD_PROJ_INIT_GAP) / c.BOARD_PROJ_EACH_GAP
  let result := mathRound val
  if result < 0 then 0 else result

/-- Go `getProjFigureNumber`. -/
def getProjFigureNumber (c : Consts) (env : Env Img) (img : Option Img) (ltX ltY : Int)
    (axis : String) (targetHue : Int) : Int :=
  decodeOffset c
    (scanMaxOffset (stepMarked c env img ltX ltY axis targetHue) (scanSteps c axis))

/-- Go `getProjDesc`.  `make([]int, W)` and `range W` are taken at `W.toNat`; Go panics on
a negative length, which no caller passes. -/
def getProjDesc (c : Consts) (env : Env Img) (img : Option Img) (boardSize : Int × Int)
    (targetHue : Int) : ProjDesc :=
  let W := boardSize.1
  let H := boardSize.2
  let distY := ((H - 1 : Int) : ℚ) / 2
  let projFigY := c.BOARD_CENTER_BLOCK_LT_Y - distY * c.BOARD_BLOCK_H - c.BOARD_X_PROJ_FIGURE_H
  let finalXProjList := (List.range W.toNat).map (fun (gridX : Nat) =>
    let gridIdxRel := (gridX : ℚ) - ((W - 1 : Int) : ℚ) / 2
    let projFigX := c.BOARD_CENTER_BLOCK_LT_X + gridIdxRel * c.BOARD_BLOCK_W
    getProjFigureNumber c env img (toInt projFigX) (toInt projFigY) "X" targetHue)
  let distX := ((W - 1 : Int) : ℚ) / 2
  let projFigX := c.BOARD_CENTER_BLOCK_LT_X - distX * c.BOARD_BLOCK_W - c.BOARD_Y_PROJ_FIGURE_W
  let finalYProjList := (List.range H.toNat).map (fun (gridY : Nat) =>
    let gridIdxRel := (gridY : ℚ) - ((H - 1 : Int) : ℚ) / 2
    let projFigY := c.BOARD_CENTER_BLOCK_LT_Y + gridIdxRel * c.BOARD_BLOCK_H
    getProjFigureNumber c env img (toInt projFigX) (toInt projFigY) "Y" targetHue)
  { XProjList := finalXProjList, YProjList := finalYProjList }

/-! ## Puzzle extraction (lines 259-431) -/

/-- The cells `(r, c)` visited by the nested loops of lines 361-362, in visiting order. -/
def thumbCells (c : Consts) : List (Nat × Nat) :=
  (List.range c.PUZZLE_THUMBNAIL_MAX_ROWS.toNat).flatMap (fun (r : Nat) =>
    (List.range c.PUZZLE_THUMBNAIL_MAX_COLS.toNat).map (fun (col : Nat) => (r, col)))

/-- The pixel position `(x, y)` of thumbnail cell `(r, c)` (lines 363-364). -/
def thumbLoc (c : Consts) (cell : Nat × Nat) : Int × Int :=
  (toInt (c.PUZZLE_THUMBNAIL_START_X + (cell.2 : ℚ) * c.PUZZLE_THUMBNAIL_W),
    toInt (c.PUZZLE_THUMBNAIL_START_Y + (cell.1 : ℚ) * c.PUZZLE_THUMBNAIL_H))

/-- The colour variance of thumbnail cell `(r, c)` (lines 365-367). -/
def thumbVariance (c : Consts) (env : Env Img) (img : Option Img) (cell : Nat × Nat) : ℚ :=
  let p := thumbLoc c cell
  env.getAreaVariance img
    (imageRect p.1 p.2 (p.1 + toInt c.PUZZLE_THUMBNAIL_W) (p.2 + toInt c.PUZZLE_THUMBNAIL_H))

/-- The scan of lines 361-388 over the remaining cells, from the current `results` and
`hasGap`.  `none` is one of the two early `return [][2]int{}`; `some results` is the value
of `results` when the loops end. -/
def scanThumbs (c : Consts) (env : Env Img) (img : Option Img) :
    List (Nat × Nat) → List (Int × Int) → Bool → Option (List (Int × Int))
  | [], results, _ => some results
  | cell :: rest, results, hasGap =>
    let variance := thumbVariance c env img cell
    if variance > c.PUZZLE_THUMBNAIL_COLOR_VAR_GRT then
      if variance > c.PUZZLE_THUMBNAIL_COLOR_VAR_LES then none
      else if hasGap then none
      else scanThumbs c env img rest (results ++ [thumbLoc c cell]) hasGap
    else scanThumbs c env img rest results true

/-- Go `getAllPuzzleThumbLoc`. -/
def getAllPuzzleThumbLoc (c : Consts) (env : Env Img) (img : Option Img) : List (Int × Int) :=
  match scanThumbs c env img (thumbCells c) [] false with
  | none => []
  | some results =>
    if (results.length : Int) ≥ c.PUZZLE_THUMBNAIL_MAX_ROWS * c.PUZZLE_THUMBNAIL_MAX_COLS then []
    else results

/-- The values of the loop variable of
`for o := -PUZZLE_MAX_EXTENT_ONE_SIDE; o <= PUZZLE_MAX_EXTENT_ONE_SIDE; o++`. -/
def extentOffsets (c : Consts) : List Int :=
  (List.range (2 * c.PUZZLE_MAX_EXTENT_ONE_SIDE + 1).toNat).map
    (fun (i : Nat) => (i : Int) - c.PUZZLE_MAX_EXTENT_ONE_SIDE)

/-- The offsets `(offsetX, offsetY)` visited by the nested loops of lines 322-323, in
visiting order. -/
def puzzleOffsets (c : Consts) : List (Int × Int) :=
  (extentOffsets c).flatMap (fun (offsetY : Int) =>
    (extentOffsets c).map (fun (offsetX : Int) => (offsetX, offsetY)))

/-- The rectangle of the block at a relative offset (lines 325-334); `PUZZLE_W/2` and
`PUZZLE_H/2` are divisions of `float64` values. -/
def puzzleBlockRect (c : Consts) (o : Int × Int) : Rect :=
  let blockCenterX := c.PUZZLE_PREVIEW_MV_X + (o.1 : ℚ) * c.PUZZLE_W
  let blockCenterY := c.PUZZLE_PREVIEW_MV_Y + (o.2 : ℚ) * c.PUZZLE_H
  let x1 := toInt (blockCenterX - c.PUZZLE_W / 2)
  let y1 := toInt (blockCenterY - c.PUZZLE_H / 2)
  imageRect x1 y1 (x1 + toInt c.PUZZLE_W) (y1 + toInt c.PUZZLE_H)

/-- The flag `isBlock` of a relative offset (lines 336-338). -/
def isBlock (c : Consts) (env : Env Img) (img : Option Img) (o : Int × Int) : Bool :=
  let rect := puzzleBlockRect c o
  let variance := env.getAreaVariance img rect
  let msv := env.getAreaMeanHSV img rect
  decide (variance > c.PUZZLE_COLOR_VAR_GRT ∧ msv.2.1 > c.PUZZLE_COLOR_SAT_GRT ∧
    msv.2.2 > c.PUZZLE_COLOR_VAL_GRT)

/-- One iteration of the loop body of lines 324-345 on `(blocks, totalHue, count)`. -/
def puzzleStep (c : Consts) (env : Env Img) (img : Option Img)
    (acc : List (Int × Int) × ℚ × Int) (o : Int × Int) : List (Int × Int) × ℚ × Int :=
  if isBlock c env img o then
    (acc.1 ++ [o], acc.2.1 + (env.getAreaMidHSV img (puzzleBlockRect c o)).1, acc.2.2 + 1)
  else acc

/-- Go `getPuzzleDesc`; `none` is the `nil` result. -/
def getPuzzleDesc (c : Consts) (env : Env Img) (img : Option Img) : Option PuzzleDesc :=
  let acc := (puzzleOffsets c).foldl (puzzleStep c env img) ([], 0, 0)
  if acc.2.2 = 0 then none
  else some { Blocks := acc.1, Hue := toInt (acc.2.1 / (acc.2.2 : ℚ)) }

/-- Go `doPreviewPuzzle` from the trace `tr`: the result and the extended trace.  The calls
`TouchUpSync`, `TouchDownSync`, `TouchMoveSync` of the action wrapper are one event each. -/
def doPreviewPuzzle (c : Consts) (env : Env Img) (thumbX thumbY : Int) (tr : List Event) :
    Option PuzzleDesc × List Event :=
  let startX := thumbX + (toInt c.PUZZLE_THUMBNAIL_W).tdiv 2
  let startY := thumbY + (toInt c.PUZZLE_THUMBNAIL_H).tdiv 2
  let endX := toInt c.PUZZLE_PREVIEW_MV_X
  let endY := toInt c.PUZZLE_PREVIEW_MV_Y
  let tr1 := tr ++ [Event.touchUp 100, Event.touchDown 0 startX startY 100,
    Event.touchMove 0 endX endY 500, Event.screencap]
  match env.cacheImage tr1 with
  | none => (none, tr1 ++ [Event.touchUp 0])
  | some previewImg => (getPuzzleDesc c env (some previewImg), tr1 ++ [Event.touchUp 250])

/-- The `target` of the `WaitStable` override (line 265). -/
def waitStableTarget (c : Consts) : List Int :=
  [toInt c.PUZZLE_THUMBNAIL_START_X, toInt c.PUZZLE_THUMBNAIL_START_Y,
    toInt ((c.PUZZLE_THUMBNAIL_MAX_COLS : ℚ) * c.PUZZLE_THUMBNAIL_W),
    toInt (((c.PUZZLE_THUMBNAIL_MAX_ROWS + 1 : Int) : ℚ) * c.PUZZLE_THUMBNAIL_H)]

/-- The loop of lines 270-281 over the remaining thumbnails, from the current `puzzleList`
and trace.  A failed `WaitStable` task returns `nil`, the empty list. -/
def previewAll (c : Consts) (env : Env Img) :
    List (Int × Int) → List PuzzleDesc → List Event → List PuzzleDesc × List Event
  | [], puzzleList, tr => (puzzleList, tr)
  | thumb :: thumbs, puzzleList, tr =>
    let tr1 := tr ++ [Event.runTask "WaitStable" (waitStableTarget c)]
    if env.runTask tr1 then
      let r := doPreviewPuzzle c env thumb.1 thumb.2 tr1
      match r.1 with
      | some desc => previewAll c env thumbs (puzzleList ++ [desc]) r.2
      | none => previewAll c env thumbs puzzleList r.2
    else ([], tr1)

/-- Go `getAllPuzzleDesc`. -/
def getAllPuzzleDesc (c : Consts) (env : Env Img) (img : Option Img) (tr : List Event) :
    List PuzzleDesc × List Event :=
  previewAll c env (getAllPuzzleThumbLoc c env img) [] tr

/-! ## Tab normalisation (lines 285-310) -/

/-- Go `doEnsureTab` from the trace `tr`: the refreshed image (`none` when the capture
failed) and the extended trace. -/
def doEnsureTab (c : Consts) (env : Env Img) (img : Option Img) (tr : List Event) :
    Option Img × List Event :=
  let rect1 := imageRect (toInt c.TAB_1_X) (toInt c.TAB_Y) (toInt (c.TAB_1_X + c.TAB_W))
    (toInt (c.TAB_Y + c.TAB_H))
  let rect2 := imageRect (toInt c.TAB_2_X) (toInt c.TAB_Y) (toInt (c.TAB_2_X + c.TAB_W))
    (toInt (c.TAB_Y + c.TAB_H))
  let val1 := (env.getAreaMeanHSV img rect1).2.2
  let val2 := (env.getAreaMeanHSV img rect2).2.2
  let tr1 := if val1 ≤ val2 then tr ++ [Event.clickKey 9, Event.sleep 500] else tr
  let tr2 := tr1 ++ [Event.screencap]
  (env.cacheImage tr2, tr2)

/-! ## Locked blocks (lines 433-456) -/

/-- The grid cells `(gridX, gridY)` visited by the nested loops of lines 436-437, in
visiting order. -/
def gridCells (boardW boardH : Int) : List (Int × Int) :=
  (List.range boardH.toNat).flatMap (fun (gridY : Nat) =>
    (List.range boardW.toNat).map (fun (gridX : Nat) => ((gridX : Int), (gridY : Int))))

/-- The loop body of lines 438-452 for one grid cell: the locked block appended for it, if
any. -/
def lockedAt (c : Consts) (env : Env Img) (img : Option Img) (boardW boardH : Int)
    (cell : Int × Int) : Option LockedBlockDesc :=
  let lt := env.convertBoardCoordToLTCoord cell.1 cell.2 boardW boardH
  let rect := imageRect lt.1 lt.2 (lt.1 + toInt c.BOARD_BLOCK_W) (lt.2 + toInt c.BOARD_BLOCK_H)
  let msv := env.getAreaMeanHSV img rect
  if msv.2.1 > c.BOARD_LOCKED_COLOR_SAT_GRT ∧ msv.2.2 > c.BOARD_LOCKED_COLOR_VAL_GRT then
    some { Loc := (cell.1, cell.2), RawLoc := (lt.1, lt.2),
           Hue := toInt (env.getAreaMidHSV img rect).1 }
  else none

/-- Go `getLockedBlocksDesc`. -/
def getLockedBlocksDesc (c : Consts) (env : Env Img) (img : Option Img) (boardW boardH : Int) :
    List LockedBlockDesc :=
  (gridCells boardW boardH).filterMap (lockedAt c env img boardW boardH)

/-! ## The orchestrator (lines 472-569) -/

/-- The `Detail` string of a recognition result: the literal `{}` or the JSON encoding of a
board description.  `json.Marshal` cannot fail on a `BoardDesc` (integers, slices and
structs only), so the fallback of lines 559-562 is never taken. -/
inductive Detail where
  | emptyRecord
  | board (b : BoardDesc)
deriving DecidableEq, Repr

/-- The fields of `maa.CustomRecognitionResult` that `Run` sets. -/
structure CustomRecognitionResult where
  Box : Rect
  Detail : Detail
deriving DecidableEq, Repr

/-- The fields of `maa.CustomRecognitionArg` that `Run` reads. -/
structure CustomRecognitionArg (Img : Type) where
  CustomRecognitionName : String
  Img : Option Img
  Roi : Rect

/-- The inner loop of lines 532-538 for one hue over the pool `locked`, whose `none` entries
are the slots already set to `nil`: the list `thisLocked` and the pool afterwards. -/
def takeLockedForHue (c : Consts) (env : Env Img) (hue : Int) :
    List (Option LockedBlockDesc) → List LockedBlockDesc × List (Option LockedBlockDesc)
  | [] => ([], [])
  | lb :: locked =>
    let r := takeLockedForHue c env hue locked
    match lb with
    | some b =>
      if env.diffHue b.Hue hue ≤ c.PUZZLE_CLUSTER_DIFF_GRT then (b :: r.1, none :: r.2)
      else (r.1, some b :: r.2)
    | none => (r.1, none :: r.2)

/-- The result of the per-hue loop: the two lists built and the pool left over. -/
structure PerHue where
  projDescList : List ProjDesc
  lockedBlockList : List (List LockedBlockDesc)
  locked : List (Option LockedBlockDesc)
deriving DecidableEq, Repr

/-- The per-hue loop of lines 517-543 over the remaining hues, from the current state.
`none` is the abort of line 528 on a projection list of the wrong length. -/
def perHueLoop (c : Consts) (env : Env Img) (img : Option Img) (boardSize : Int × Int) :
    List Int → PerHue → Option PerHue
  | [], st => some st
  | hue :: hues, st =>
    let projDesc := getProjDesc c env img boardSize hue
    if (projDesc.XProjList.length : Int) ≠ boardSize.1 ∨
        (projDesc.YProjList.length : Int) ≠ boardSize.2 then none
    else
      let r := takeLockedForHue c env hue st.locked
      perHueLoop c env img boardSize hues
        { projDescList := st.projDescList ++ [projDesc]
          lockedBlockList := st.lockedBlockList ++ [r.1]
          locked := r.2 }

/-- The state in which `Run` enters the per-hue loop: both lists empty, every block of the
pool present. -/
def perHueInit (locked : List LockedBlockDesc) : PerHue :=
  { projDescList := [], lockedBlockList := [], locked := locked.map some }

/-- Go `Recognition.Run` from the trace `tr`: the pair `(result, ok)` it returns and the
extended trace.  `result = none` is the `nil` result. -/
def Run (c : Consts) (env : Env Img) (arg : CustomRecognitionArg Img) (tr : List Event) :
    (Option CustomRecognitionResult × Bool) × List Event :=
  match arg.Img with
  | none => ((none, false), tr)
  | some _ =>
    let p := getAllPuzzleDesc c env arg.Img tr
    let puzzleList := p.1
    if puzzleList.length = 0 then
      ((some { Box := arg.Roi, Detail := Detail.emptyRecord }, false), p.2)
    else
      let t := doEnsureTab c env arg.Img p.2
      let img := t.1
      let boardSize := getPossibleBoardSize c env img
      if boardSize.1 = 0 ∨ boardSize.2 = 0 then ((none, false), t.2)
      else
        let banned := getBannedBlocksLTCoord c env img
        let locked := getLockedBlocksDesc c env img boardSize.1 boardSize.2
        let hueList := getPossibleHues c env puzzleList
        match perHueLoop c env img boardSize hueList (perHueInit locked) with
        | none => ((none, false), t.2)
        | some st =>
          ((some { Box := arg.Roi
                   Detail := Detail.board
                     { W := boardSize.1
                       H := boardSize.2
                       ProjDescList := st.projDescList
                       BannedBlockList :=
                         convertBlockLtToBannedBlockDesc env boardSize.1 boardSize.2 banned
                       LockedBlockList := st.lockedBlockList
                       PuzzleList := puzzleList
                       HueList := hueList } }, true), t.2)

/-! ## The projection extent in the words of the specification -/

/-- The marked extent of a scan of `n` steps as the specification words it: one plus the
largest marked step index, and `0` when no step is marked. -/
def markedExtent (marked : Nat → Bool) (n : Nat) : Nat :=
  match ((List.range n).filter marked).max? with
  | some i => i + 1
  | none => 0

/-! ## The acceptance window in the words of the specification -/

/-- The score of dimension `d` read as "the summed squared confidence of the matches within
one cropped block-length of the expected position", the distance taken in absolute value. -/
def absWindowScore (anchor block : ℚ) (centre : MatchResult → Int) (ms : List MatchResult)
    (d : Int) : ℚ :=
  ((ms.filter (fun m =>
    decide (|expectedPos anchor block d - (centre m : ℚ)| < cropFactor * block))).map
    (fun m => m.Score * m.Score)).sum

/-! ## A sample configuration and environment

Concrete values on which the definitions above can be evaluated: a frame showing two
thumbnails, a two-by-two board, one banned marker on the board and one beside it, two locked
cells and two puzzle hues. -/

/-- Sample values for the package constants. -/
def sampleConsts : Consts :=
  { WORK_W := 1280
    WORK_H := 720
    BOARD_MAX_EXTENT_ONE_SIDE := 2
    BOARD_CENTER_BLOCK_LT_X := 600
    BOARD_CENTER_BLOCK_LT_Y := 300
    BOARD_BLOCK_W := 60
    BOARD_BLOCK_H := 60
    BOARD_X_PROJ_FIGURE_H := 4
    BOARD_Y_PROJ_FIGURE_W := 4
    BOARD_PROJ_COLOR_SAT_GRT := 50
    BOARD_PROJ_COLOR_VAL_GRT := 50
    BOARD_PROJ_INIT_GAP := 1
    BOARD_PROJ_EACH_GAP := 1
    BOARD_LOCKED_COLOR_SAT_GRT := 50
    BOARD_LOCKED_COLOR_VAL_GRT := 50
    PUZZLE_CLUSTER_DIFF_GRT := 10
    PUZZLE_THUMBNAIL_START_X := 1000
    PUZZLE_THUMBNAIL_START_Y := 100
    PUZZLE_THUMBNAIL_W := 100
    PUZZLE_THUMBNAIL_H := 100
    PUZZLE_THUMBNAIL_MAX_ROWS := 2
    PUZZLE_THUMBNAIL_MAX_COLS := 2
    PUZZLE_THUMBNAIL_COLOR_VAR_GRT := 10
    PUZZLE_THUMBNAIL_COLOR_VAR_LES := 1000
    PUZZLE_PREVIEW_MV_X := 400
    PUZZLE_PREVIEW_MV_Y := 400
    PUZZLE_MAX_EXTENT_ONE_SIDE := 1
    PUZZLE_W := 40
    PUZZLE_H := 40
    PUZZLE_COLOR_VAR_GRT := 10
    PUZZLE_COLOR_SAT_GRT := 50
    PUZZLE_COLOR_VAL_GRT := 50
    TAB_1_X := 10
    TAB_2_X := 110
    TAB_Y := 10
    TAB_W := 80
    TAB_H := 20 }

/-- The sample template matcher: two column-count markers, two row-count markers, and two
banned markers of which the second lies beside the board. -/
def sampleMatches (name : String) : List MatchResult :=
  if name = "PuzzleSolver/ProjX_SVGB.png" then
    [{ X := 560, Y := 240, CenterX := 570, CenterY := 250, Score := 9 / 10 },
     { X := 620, Y := 240, CenterX := 630, CenterY := 250, Score := 8 / 10 }]
  else if name = "PuzzleSolver/ProjY_SVGB.png" then
    [{ X := 540, Y := 290, CenterX := 550, CenterY := 300, Score := 9 / 10 },
     { X := 540, Y := 350, CenterX := 550, CenterY := 360, Score := 7 / 10 }]
  else
    [{ X := 570, Y := 270, CenterX := 600, CenterY := 300, Score := 1 },
     { X := 700, Y := 270, CenterX := 730, CenterY := 300, Score := 1 }]

/-- The sample environment.  An image is a number: the length of the trace at its capture
(`0` for the frame `Run` is given). -/
def sampleEnv : Env Nat :=
  { clusterHues := fun hues _ => hues.map (fun h => [h])
    meanHue := fun members => members.sum / members.length
    diffHue := fun a b => min ((a - b).natAbs : Int) (360 - ((a - b).natAbs : Int))
    getSVGBImage := fun img => img
    matchTemplateAll := fun _ name _ _ => sampleMatches name
    getPixelHSV := fun _ x y targetHue _ =>
      if x < 600 ∧ 268 ≤ y ∧ y < 300 ∧ targetHue < 100 then (targetHue, 100, 100)
      else (0, 0, 0)
    getAreaVariance := fun _ r =>
      if r.MinY = 100 ∧ 1000 ≤ r.MinX then 50
      else if r.MinY = 380 ∧ 380 ≤ r.MinX then 50
      else 0
    getAreaMeanHSV := fun _ r =>
      if r.MinX = 10 then (0, 0, 90)
      else if r.MinX = 110 then (0, 0, 30)
      else if r.MinY = 380 then (0, 100, 100)
      else if r.MinX = 570 then (0, 100, 100)
      else (0, 0, 0)
    getAreaMidHSV := fun img r =>
      if img = some 5 then (75, 0, 0)
      else if img = some 11 then (200, 0, 0)
      else if r.MinY = 270 then (77, 0, 0)
      else (205, 0, 0)
    convertLTCoordToBoardCoord := fun x y w h =>
      ((x - (600 - (w - 1) * 30)) / 60, (y - (300 - (h - 1) * 30)) / 60)
    convertBoardCoordToLTCoord := fun x y w h =>
      (600 + (2 * x - (w - 1)) * 30, 300 + (2 * y - (h - 1)) * 30)
    mapOrder := MapOrder.reversed
    cacheImage := fun tr => some tr.length
    runTask := fun _ => true }

/-- The sample argument of `Run`: the frame numbered `0`. -/
def sampleArg : CustomRecognitionArg Nat :=
  { CustomRecognitionName := "PuzzleSolver"
    Img := some 0
    Roi := { MinX := 0, MinY := 0, MaxX := 1280, MaxY := 720 } }

/-- The board description `Run` produces on the sample input. -/
def sampleBoard : BoardDesc :=
  { W := 2
    H := 2
    ProjDescList := [{ XProjList := [1, 0], YProjList := [3, 0] },
      { XProjList := [0, 0], YProjList := [0, 0] }]
    BannedBlockList := [{ Loc := (0, 0), RawLoc := (570, 270) }]
    LockedBlockList := [[{ Loc := (0, 0), RawLoc := (570, 270), Hue := 77 }],
      [{ Loc := (0, 1), RawLoc := (570, 330), Hue := 205 }]]
    PuzzleList := [{ Blocks := [(0, 0), (1, 0)], Hue := 75 },
      { Blocks := [(0, 0), (1, 0)], Hue := 200 }]
    HueList := [75, 200] }

/-- The recognition result `Run` returns on the sample input. -/
def sampleResult : CustomRecognitionResult :=
  { Box := { MinX := 0, MinY := 0, MaxX := 1280, MaxY := 720 }
    Detail := Detail.board sampleBoard }

/-- The sample environment with the area variance replaced by a function of the rectangle. -/
def sampleEnvWithVariance (v : Rect → ℚ) : Env Nat :=
  { sampleEnv with getAreaVariance := fun _ r => v r }

/-- A pool of three locked blocks, two of them of nearly the same hue. -/
def samplePool : List LockedBlockDesc :=
  [{ Loc := (0, 0), RawLoc := (570, 270), Hue := 77 },
   { Loc := (0, 1), RawLoc := (570, 330), Hue := 205 },
   { Loc := (1, 1), RawLoc := (630, 330), Hue := 80 }]

/-- Sample matches of a five-by-five board: five column-count markers above the five columns
and five row-count markers left of the five rows, none of zero confidence. -/
def sampleFiveMatches (name : String) : List MatchResult :=
  if name = "PuzzleSolver/ProjX_SVGB.png" then
    [{ X := 500, Y := 160, CenterX := 510, CenterY := 170, Score := 9 / 10 },
     { X := 560, Y := 160, CenterX := 570, CenterY := 170, Score := 8 / 10 },
     { X := 620, Y := 160, CenterX := 630, CenterY := 170, Score := 9 / 10 },
     { X := 680, Y := 160, CenterX := 690, CenterY := 170, Score := 7 / 10 },
     { X := 740, Y := 160, CenterX := 750, CenterY := 170, Score := 9 / 10 }]
  else if name = "PuzzleSolver/ProjY_SVGB.png" then
    [{ X := 460, Y := 200, CenterX := 470, CenterY := 210, Score := 9 / 10 },
     { X := 460, Y := 260, CenterX := 470, CenterY := 270, Score := 9 / 10 },
     { X := 460, Y := 320, CenterX := 470, CenterY := 330, Score := 6 / 10 },
     { X := 460, Y := 380, CenterX := 470, CenterY := 390, Score := 9 / 10 },
     { X := 460, Y := 440, CenterX := 470, CenterY := 450, Score := 8 / 10 }]
  else []

/-- The sample environment showing a five-by-five board. -/
def sampleEnvFive : Env Nat :=
  { sampleEnv with matchTemplateAll := fun _ name _ _ => sampleFiveMatches name }

/-- The sample environment in which the capture refreshed by `doEnsureTab` (the capture taken
at trace length 13) cannot be obtained; every other capture succeeds. -/
def sampleEnvNoRefresh : Env Nat :=
  { sampleEnv with cacheImage := fun tr => if tr.length = 13 then none else some tr.length }

/-- The sample environment in which the first preview capture (the capture taken at trace
length 5) cannot be obtained; every other capture succeeds. -/
def sampleEnvNoFirstPreview : Env Nat :=
  { sampleEnv with cacheImage := fun tr => if tr.length = 5 then none else some tr.length }

/-! ## The preview loop in the words of the specification -/

/-- The result of `doPreviewPuzzle` for each thumbnail in turn, `none` for a preview that
yields no shape: every thumbnail is stabilised and previewed from the trace its predecessor
left, whatever that predecessor returned. -/
def previewEach (c : Consts) (env : Env Img) :
    List (Int × Int) → List Event → List (Option PuzzleDesc)
  | [], _ => []
  | thumb :: thumbs, tr =>
    let r := doPreviewPuzzle c env thumb.1 thumb.2
      (tr ++ [Event.runTask "WaitStable" (waitStableTarget c)])
    r.1 :: previewEach c env thumbs r.2

/-- Whether the `WaitStable` sub-task succeeds for each thumbnail in turn. -/
def stabilizationsSucceed (c : Consts) (env : Env Img) :
    List (Int × Int) → List Event → Bool
  | [], _ => true
  | thumb :: thumbs, tr =>
    env.runTask (tr ++ [Event.runTask "WaitStable" (waitStableTarget c)]) &&
      stabilizationsSucceed c env thumbs
        (doPreviewPuzzle c env thumb.1 thumb.2
          (tr ++ [Event.runTask "WaitStable" (waitStableTarget c)])).2

/-! ## The hue of a locked block in the words of the specification -/

/-- The position in `hues` of the first hue, in list order, whose distance `diffHue` to the
hue of the block `b` is at most `PUZZLE_CLUSTER_DIFF_GRT`; `none` when the block is farther
than that from every hue of the list. -/
def firstCloseHue (c : Consts) (env : Env Img) (hues : List Int) (b : LockedBlockDesc) :
    Option Nat :=
  hues.findIdx? (fun hue => decide (env.diffHue b.Hue hue ≤ c.PUZZLE_CLUSTER_DIFF_GRT))

/-- The sample environment whose template matcher reports one marker far from every expected
position, on either axis. -/
def sampleEnvStrayMatch : Env Nat :=
  { sampleEnv with
    matchTemplateAll := fun _ _ _ _ =>
      [{ X := 890, Y := 490, CenterX := 900, CenterY := 500, Score := 9 / 10 }] }

/-! ## Properties of the per-hue loop -/

theorem decodeOffset_nonneg (c : Consts) (m : Int) : 0 ≤ decodeOffset c m := by
  unfold decodeOffset
  simp only
  split
  · exact le_refl 0
  · omega

theorem getProjDesc_lengths (c : Consts) (env : Env Img) (img : Option Img) (W H : Int)
    (hue : Int) (hW : 0 ≤ W) (hH : 0 ≤ H) :
    ((getProjDesc c env img (W, H) hue).XProjList.length : Int) = W ∧
      ((getProjDesc c env img (W, H) hue).YProjList.length : Int) = H := by
  unfold getProjDesc
  simp only [List.length_map, List.length_range]
  exact ⟨Int.toNat_of_nonneg hW, Int.toNat_of_nonneg hH⟩

theorem perHueLoop_lengths (c : Consts) (env : Env Img) (img : Option Img) (bs : Int × Int) :
    ∀ (hues : List Int) (st st1 : PerHue), perHueLoop c env img bs hues st = some st1 →
      st1.projDescList.length = st.projDescList.length + hues.length ∧
      st1.lockedBlockList.length = st.lockedBlockList.length + hues.length := by
  intro hues
  induction hues with
  | nil =>
    intro st st1 h
    simp only [perHueLoop, Option.some.injEq] at h
    subst h
    simp
  | cons hue hues ih =>
    intro st st1 h
    simp only [perHueLoop] at h
    split at h
    · exact absurd h (by simp)
    · have := ih _ _ h
      simp only [List.length_append, List.length_singleton, List.length_cons,
        List.length_nil] at this ⊢
      omega

theorem perHueLoop_isSome (c : Consts) (env : Env Img) (img : Option Img) (W H : Int)
    (hW : 0 ≤ W) (hH : 0 ≤ H) :
    ∀ (hues : List Int) (st : PerHue), ∃ st1, perHueLoop c env img (W, H) hues st = some st1 := by
  intro hues
  induction hues with
  | nil => intro st; exact ⟨st, rfl⟩
  | cons hue hues ih =>
    intro st
    have hl := getProjDesc_lengths c env img W H hue hW hH
    simp only [perHueLoop]
    rw [if_neg (by simp [hl.1, hl.2])]
    exact ih _

/-- C1. Whenever `Run` succeeds with a board description, the lists `ProjDescList`,
`LockedBlockList` and `HueList` of that description have the same length, `HueList` being
the output of `getPossibleHues` on the puzzles of the description. -/
theorem Run_parallel_lists (c : Consts) (env : Env Img) (arg : CustomRecognitionArg Img)
    (tr : List Event) (res : CustomRecognitionResult) (b : BoardDesc)
    (hrun : (Run c env arg tr).1 = (some res, true)) (hb : res.Detail = Detail.board b) :
    b.ProjDescList.length = b.LockedBlockList.length ∧
      b.LockedBlockList.length = b.HueList.length ∧
      b.HueList = getPossibleHues c env b.PuzzleList := by
  unfold Run at hrun
  split at hrun
  · simp at hrun
  · simp only at hrun
    split at hrun
    · simp at hrun
    · split at hrun
      · simp at hrun
      · split at hrun
        · simp at hrun
        · rename_i st hst
          have hl := perHueLoop_lengths c env _ _ _ _ _ hst
          simp only [Prod.mk.injEq, Option.some.injEq, and_true] at hrun
          subst hrun
          simp only [Detail.board.injEq] at hb
          subst hb
          simp only [perHueInit, List.length_nil, Nat.zero_add] at hl
          exact ⟨by rw [hl.1, hl.2], hl.2, rfl⟩

theorem takeLockedForHue_perm (c : Consts) (env : Env Img) (hue : Int) :
    ∀ locked : List (Option LockedBlockDesc),
      ((takeLockedForHue c env hue locked).1 ++
        (takeLockedForHue c env hue locked).2.reduceOption).Perm locked.reduceOption := by
  intro locked
  induction locked with
  | nil => simp [takeLockedForHue]
  | cons lb locked ih =>
    cases lb with
    | none =>
      simp only [takeLockedForHue, List.reduceOption_cons_of_none]
      exact ih
    | some b =>
      simp only [takeLockedForHue]
      split
      · simp only [List.reduceOption_cons_of_none, List.reduceOption_cons_of_some,
          List.cons_append]
        exact List.Perm.cons b ih
      · simp only [List.reduceOption_cons_of_some]
        exact (List.perm_middle).trans (List.Perm.cons b ih)

theorem perHueLoop_perm (c : Consts) (env : Env Img) (img : Option Img) (bs : Int × Int) :
    ∀ (hues : List Int) (st st1 : PerHue), perHueLoop c env img bs hues st = some st1 →
      (st1.lockedBlockList.flatten ++ st1.locked.reduceOption).Perm
        (st.lockedBlockList.flatten ++ st.locked.reduceOption) := by
  intro hues
  induction hues with
  | nil =>
    intro st st1 h
    simp only [perHueLoop, Option.some.injEq] at h
    subst h
    exact List.Perm.refl _
  | cons hue hues ih =>
    intro st st1 h
    simp only [perHueLoop] at h
    split at h
    · exact absurd h (by simp)
    · refine (ih _ _ h).trans ?_
      simp only [List.flatten_append, List.flatten_cons, List.flatten_nil, List.append_nil,
        List.append_assoc]
      exact List.Perm.append_left _ (takeLockedForHue_perm c env hue st.locked)

theorem reduceOption_map_some (l : List LockedBlockDesc) : (l.map some).reduceOption = l := by
  induction l with
  | nil => rfl
  | cons a l ih => simp [List.reduceOption_cons_of_some, ih]

/-! ## Properties of the dimension selection -/

theorem mem_candidates (maxExtent d : Int) :
    d ∈ candidates maxExtent ↔ 2 ≤ d ∧ d ≤ 2 * maxExtent + 1 := by
  simp only [candidates, List.mem_map, List.mem_range]
  constructor
  · rintro ⟨i, hi, rfl⟩
    omega
  · intro h
    exact ⟨(d - 2).toNat, by omega, by omega⟩

theorem mem_scoreEntries (maxExtent : Int) (anchor block : ℚ) (centre : MatchResult → Int)
    (ms : List MatchResult) (e : Int × ℚ) :
    e ∈ scoreEntries maxExtent anchor block centre ms ↔
      (2 ≤ e.1 ∧ e.1 ≤ 2 * maxExtent + 1) ∧ e.2 = axisScore anchor block centre ms e.1 := by
  simp only [scoreEntries, List.mem_map, mem_candidates]
  constructor
  · rintro ⟨d, hd, rfl⟩
    exact ⟨hd, rfl⟩
  · rintro ⟨hd, hs⟩
    exact ⟨e.1, hd, by rw [← hs]⟩

theorem axisScore_fold_nonneg (anchor block : ℚ) (centre : MatchResult → Int) (d : Int) :
    ∀ (ms : List MatchResult) (init : ℚ), 0 ≤ init →
      0 ≤ ms.foldl
        (fun score m =>
          let delta := expectedPos anchor block d - (centre m : ℚ)
          if 0 < delta ∧ delta < block * cropFactor then score + m.Score * m.Score else score)
        init := by
  intro ms
  induction ms with
  | nil => intro init h; simpa using h
  | cons m ms ih =>
    intro init h
    simp only [List.foldl_cons]
    apply ih
    split
    · exact add_nonneg h (mul_self_nonneg _)
    · exact h

theorem axisScore_nonneg (anchor block : ℚ) (centre : MatchResult → Int)
    (ms : List MatchResult) (d : Int) : 0 ≤ axisScore anchor block centre ms d :=
  axisScore_fold_nonneg anchor block centre d ms 0 (le_refl 0)

theorem pickStep_spec (acc : ℚ × Int) (e : Int × ℚ) :
    acc.1 ≤ (pickStep acc e).1 ∧ e.2 ≤ (pickStep acc e).1 ∧
      ((pickStep acc e).1 = acc.1 → acc.2 ≤ (pickStep acc e).2) ∧
      (e.2 = (pickStep acc e).1 → e.1 ≤ (pickStep acc e).2) ∧
      (pickStep acc e = acc ∨ pickStep acc e = (e.2, e.1)) := by
  unfold pickStep
  by_cases h1 : e.2 > acc.1
  · rw [if_pos h1]
    refine ⟨le_of_lt h1, le_refl _, ?_, fun _ => le_refl _, Or.inr rfl⟩
    intro h
    simp only at h
    exact absurd h (ne_of_gt h1)
  · rw [if_neg h1]
    by_cases h2 : e.2 = acc.1 ∧ e.1 > acc.2
    · rw [if_pos h2]
      refine ⟨le_refl _, le_of_eq h2.1, fun _ => le_of_lt h2.2, fun _ => le_refl _, Or.inr ?_⟩
      rw [h2.1]
    · rw [if_neg h2]
      refine ⟨le_refl _, not_lt.mp h1, fun _ => le_refl _, ?_, Or.inl rfl⟩
      intro h
      by_contra hlt
      exact h2 ⟨h, not_le.mp hlt⟩

theorem foldl_pickStep_spec :
    ∀ (l : List (Int × ℚ)) (acc : ℚ × Int),
      (acc.1 ≤ (l.foldl pickStep acc).1 ∧ ∀ e ∈ l, e.2 ≤ (l.foldl pickStep acc).1) ∧
      (((l.foldl pickStep acc).1 = acc.1 → acc.2 ≤ (l.foldl pickStep acc).2) ∧
        ∀ e ∈ l, e.2 = (l.foldl pickStep acc).1 → e.1 ≤ (l.foldl pickStep acc).2) ∧
      (l.foldl pickStep acc = acc ∨ ∃ e ∈ l, l.foldl pickStep acc = (e.2, e.1)) := by
  intro l
  induction l with
  | nil => intro acc; simp
  | cons e l ih =>
    intro acc
    simp only [List.foldl_cons, List.mem_cons, forall_eq_or_imp]
    obtain ⟨⟨i1, i2⟩, ⟨i3, i4⟩, i5⟩ := ih (pickStep acc e)
    obtain ⟨s1, s2, s3, s4, s5⟩ := pickStep_spec acc e
    refine ⟨⟨le_trans s1 i1, le_trans s2 i1, i2⟩, ⟨?_, ?_, i4⟩, ?_⟩
    · intro h
      have h1 : (pickStep acc e).1 = acc.1 := le_antisymm (by rw [← h]; exact i1) s1
      exact le_trans (s3 h1) (i3 (by rw [h, h1]))
    · intro h
      have h1 : e.2 = (pickStep acc e).1 := le_antisymm s2 (by rw [h]; exact i1)
      exact le_trans (s4 h1) (i3 (by rw [← h, h1]))
    · rcases i5 with h | ⟨e1, he1, h⟩
      · rcases s5 with h5 | h5
        · exact Or.inl (by rw [h, h5])
        · exact Or.inr ⟨e, Or.inl rfl, by rw [h, h5]⟩
      · exact Or.inr ⟨e1, Or.inr he1, h⟩

theorem pickBest_spec (maxExtent : Int) (anchor block : ℚ) (centre : MatchResult → Int)
    (ms : List MatchResult) (order : List (Int × ℚ))
    (hperm : order.Perm (scoreEntries maxExtent anchor block centre ms))
    (hmax : 1 ≤ maxExtent) :
    (2 ≤ pickBest order ∧ pickBest order ≤ 2 * maxExtent + 1) ∧
      ∀ d, 2 ≤ d → d ≤ 2 * maxExtent + 1 →
        axisScore anchor block centre ms d ≤ axisScore anchor block centre ms (pickBest order) ∧
        (axisScore anchor block centre ms d = axisScore anchor block centre ms (pickBest order) →
          d ≤ pickBest order) := by
  obtain ⟨⟨f1, f2⟩, ⟨_, f4⟩, f5⟩ := foldl_pickStep_spec order (-1, 0)
  have hmem : ∀ e, e ∈ order ↔
      (2 ≤ e.1 ∧ e.1 ≤ 2 * maxExtent + 1) ∧ e.2 = axisScore anchor block centre ms e.1 :=
    fun e => (hperm.mem_iff).trans (mem_scoreEntries maxExtent anchor block centre ms e)
  have h2 : ((2 : Int), axisScore anchor block centre ms 2) ∈ order :=
    (hmem _).2 ⟨⟨le_refl 2, by omega⟩, rfl⟩
  have hne : List.foldl pickStep (-1, 0) order ≠ (-1, 0) := by
    intro h
    have h3 := f2 _ h2
    rw [h] at h3
    have h4 := axisScore_nonneg anchor block centre ms 2
    simp only at h3
    linarith
  rcases f5 with h | ⟨e, he, h⟩
  · exact absurd h hne
  · have hb : pickBest order = e.1 := by unfold pickBest; rw [h]
    have hs : (List.foldl pickStep (-1, 0) order).1 = e.2 := by rw [h]
    obtain ⟨hr, hv⟩ := (hmem e).1 he
    rw [hb]
    refine ⟨hr, fun d hd1 hd2 => ?_⟩
    have hd : (d, axisScore anchor block centre ms d) ∈ order := (hmem _).2 ⟨⟨hd1, hd2⟩, rfl⟩
    have g1 := f2 _ hd
    have g2 := f4 _ hd
    rw [hs] at g1 g2
    rw [← hv]
    simp only at g1 g2
    refine ⟨g1, fun heq => ?_⟩
    have := g2 heq
    unfold pickBest at hb
    rw [hb] at this
    exact this

theorem pickBest_nonneg (maxExtent : Int) (anchor block : ℚ) (centre : MatchResult → Int)
    (ms : List MatchResult) (order : List (Int × ℚ))
    (hperm : order.Perm (scoreEntries maxExtent anchor block centre ms)) :
    0 ≤ pickBest order := by
  obtain ⟨_, _, f5⟩ := foldl_pickStep_spec order (-1, 0)
  unfold pickBest
  rcases f5 with h | ⟨e, he, h⟩
  · rw [h]
  · rw [h]
    have := ((mem_scoreEntries maxExtent anchor block centre ms e).1 (hperm.mem_iff.1 he)).1.1
    simp only
    omega

theorem estimateAxis_nil (c : Consts) (env : Env Img) (anchor block : ℚ)
    (centre : MatchResult → Int) : estimateAxis c env anchor block centre [] = 0 := by
  simp [estimateAxis]

theorem estimateAxis_cons (c : Consts) (env : Env Img) (anchor block : ℚ)
    (centre : MatchResult → Int) (ms : List MatchResult) (hms : ms ≠ []) :
    estimateAxis c env anchor block centre ms =
      pickBest (env.mapOrder.order
        (scoreEntries c.BOARD_MAX_EXTENT_ONE_SIDE anchor block centre ms)) := by
  unfold estimateAxis
  rw [if_pos (List.length_pos.2 hms)]

theorem estimateAxis_nonneg (c : Consts) (env : Env Img) (anchor block : ℚ)
    (centre : MatchResult → Int) (ms : List MatchResult) :
    0 ≤ estimateAxis c env anchor block centre ms := by
  by_cases hms : ms = []
  · rw [hms, estimateAxis_nil]
  · rw [estimateAxis_cons c env anchor block centre ms hms]
    exact pickBest_nonneg _ anchor block centre ms _ (env.mapOrder.perm _)

theorem estimateAxis_spec (c : Consts) (env : Env Img) (anchor block : ℚ)
    (centre : MatchResult → Int) (ms : List MatchResult) (hms : ms ≠ [])
    (hmax : 1 ≤ c.BOARD_MAX_EXTENT_ONE_SIDE) :
    (2 ≤ estimateAxis c env anchor block centre ms ∧
        estimateAxis c env anchor block centre ms ≤ 2 * c.BOARD_MAX_EXTENT_ONE_SIDE + 1) ∧
      ∀ d, 2 ≤ d → d ≤ 2 * c.BOARD_MAX_EXTENT_ONE_SIDE + 1 →
        axisScore anchor block centre ms d ≤
          axisScore anchor block centre ms (estimateAxis c env anchor block centre ms) ∧
        (axisScore anchor block centre ms d =
          axisScore anchor block centre ms (estimateAxis c env anchor block centre ms) →
          d ≤ estimateAxis c env anchor block centre ms) := by
  rw [estimateAxis_cons c env anchor block centre ms hms]
  exact pickBest_spec _ anchor block centre ms _ (env.mapOrder.perm _) hmax

theorem estimateAxis_order_irrelevant (c : Consts) (env env2 : Env Img) (anchor block : ℚ)
    (centre : MatchResult → Int) (ms : List MatchResult) :
    estimateAxis c env anchor block centre ms = estimateAxis c env2 anchor block centre ms := by
  by_cases hms : ms = []
  · rw [hms, estimateAxis_nil, estimateAxis_nil]
  · by_cases hmax : 1 ≤ c.BOARD_MAX_EXTENT_ONE_SIDE
    · obtain ⟨⟨a1, a2⟩, a3⟩ := estimateAxis_spec c env anchor block centre ms hms hmax
      obtain ⟨⟨b1, b2⟩, b3⟩ := estimateAxis_spec c env2 anchor block centre ms hms hmax
      have p := a3 _ b1 b2
      have q := b3 _ a1 a2
      have heq := le_antisymm q.1 p.1
      exact le_antisymm (q.2 heq) (p.2 heq.symm)
    · rw [estimateAxis_cons c env anchor block centre ms hms,
        estimateAxis_cons c env2 anchor block centre ms hms]
      have hnil : scoreEntries c.BOARD_MAX_EXTENT_ONE_SIDE anchor block centre ms = [] := by
        unfold scoreEntries candidates
        have : (2 * c.BOARD_MAX_EXTENT_ONE_SIDE).toNat = 0 := by omega
        rw [this]
        rfl
      rw [hnil, List.perm_nil.1 (env.mapOrder.perm []), List.perm_nil.1 (env2.mapOrder.perm [])]

theorem getPossibleBoardSize_nonneg (c : Consts) (env : Env Img) (img : Option Img) :
    0 ≤ (getPossibleBoardSize c env img).1 ∧ 0 ≤ (getPossibleBoardSize c env img).2 :=
  ⟨estimateAxis_nonneg c env _ _ _ _, estimateAxis_nonneg c env _ _ _ _⟩

/-- C2. For a board size `(W, H)` with `W ≥ 0` and `H ≥ 0`, any image and any target hue,
`getProjDesc` returns an `XProjList` of length `W` and a `YProjList` of length `H` whose
entries are all non-negative; hence the per-hue loop never takes the length-mismatch abort,
neither for such a size nor for the size `getPossibleBoardSize` computes in `Run`. -/
theorem getProjDesc_shape (c : Consts) (env : Env Img) (img : Option Img) (W H : Int)
    (hue : Int) (hW : 0 ≤ W) (hH : 0 ≤ H) :
    ((getProjDesc c env img (W, H) hue).XProjList.length : Int) = W ∧
      ((getProjDesc c env img (W, H) hue).YProjList.length : Int) = H ∧
      (∀ n ∈ (getProjDesc c env img (W, H) hue).XProjList, 0 ≤ n) ∧
      (∀ n ∈ (getProjDesc c env img (W, H) hue).YProjList, 0 ≤ n) ∧
      (∀ hues st, perHueLoop c env img (W, H) hues st ≠ none) ∧
      (∀ img0 hues st,
        perHueLoop c env img (getPossibleBoardSize c env img0) hues st ≠ none) := by
  refine ⟨(getProjDesc_lengths c env img W H hue hW hH).1,
    (getProjDesc_lengths c env img W H hue hW hH).2, ?_, ?_, ?_, ?_⟩
  · intro n hn
    simp only [getProjDesc, List.mem_map] at hn
    obtain ⟨_, _, rfl⟩ := hn
    exact decodeOffset_nonneg c _
  · intro n hn
    simp only [getProjDesc, List.mem_map] at hn
    obtain ⟨_, _, rfl⟩ := hn
    exact decodeOffset_nonneg c _
  · intro hues st h
    obtain ⟨st1, h1⟩ := perHueLoop_isSome c env img W H hW hH hues st
    rw [h1] at h
    exact absurd h (by simp)
  · intro img0 hues st h
    obtain ⟨st1, h1⟩ := perHueLoop_isSome c env img _ _
      (getPossibleBoardSize_nonneg c env img0).1 (getPossibleBoardSize_nonneg c env img0).2 hues st
    rw [h1] at h
    exact absurd h (by simp)

/-- C3. The per-hue loop run on a pool of locked blocks and any list of hues (repeated or
mutually close hues included) produces one partition per hue; the partitions together with
the blocks left in the pool are a rearrangement of the pool, so every block of the pool
occurs at most as often in all partitions together as it occurs in the pool (once, for
distinct blocks), and the partitions hold no more blocks than the pool. -/
theorem perHueLoop_partitions_pool (c : Consts) (env : Env Img) (img : Option Img) (W H : Int)
    (hues : List Int) (pool : List LockedBlockDesc) (hW : 0 ≤ W) (hH : 0 ≤ H) :
    ∃ st, perHueLoop c env img (W, H) hues (perHueInit pool) = some st ∧
      st.lockedBlockList.length = hues.length ∧
      (st.lockedBlockList.flatten ++ st.locked.reduceOption).Perm pool ∧
      (∀ b, ((st.lockedBlockList.map (fun part => part.count b)).sum ≤ pool.count b)) ∧
      (pool.Nodup → st.lockedBlockList.flatten.Nodup) ∧
      (st.lockedBlockList.map List.length).sum ≤ pool.length := by
  obtain ⟨st, hst⟩ := perHueLoop_isSome c env img W H hW hH hues (perHueInit pool)
  have hperm := perHueLoop_perm c env img (W, H) hues _ _ hst
  have hlen := (perHueLoop_lengths c env img (W, H) hues _ _ hst).2
  simp only [perHueInit, List.flatten_nil, List.nil_append, reduceOption_map_some,
    List.length_nil, Nat.zero_add] at hperm hlen
  refine ⟨st, hst, hlen, hperm, ?_, ?_, ?_⟩
  · intro b
    have h1 := hperm.count_eq b
    rw [List.count_append, List.count_flatten] at h1
    have : (List.map (fun part => List.count b part) st.lockedBlockList).sum =
        (List.map (List.count b) st.lockedBlockList).sum := rfl
    omega
  · intro hnd
    exact (List.nodup_append.1 ((hperm.nodup_iff).2 hnd)).1
  · have h1 := hperm.length_eq
    rw [List.length_append, List.length_flatten] at h1
    omega

/-! ## Properties of the block classifier -/

theorem convertBlockLtToBannedBlockDesc_eq (env : Env Img) (W H : Int) :
    ∀ blocks : List (Int × Int),
      convertBlockLtToBannedBlockDesc env W H blocks =
        (blocks.filter (fun b =>
          decide (0 ≤ (env.convertLTCoordToBoardCoord b.1 b.2 W H).1 ∧
            (env.convertLTCoordToBoardCoord b.1 b.2 W H).1 < W ∧
            0 ≤ (env.convertLTCoordToBoardCoord b.1 b.2 W H).2 ∧
            (env.convertLTCoordToBoardCoord b.1 b.2 W H).2 < H))).map
          (fun b => { Loc := env.convertLTCoordToBoardCoord b.1 b.2 W H, RawLoc := b }) := by
  intro blocks
  induction blocks with
  | nil => rfl
  | cons b blocks ih =>
    simp only [convertBlockLtToBannedBlockDesc, List.filter_cons, ge_iff_le]
    split
    · rename_i h
      rw [if_pos (by simpa using h), List.map_cons, ih]
    · rename_i h
      rw [if_neg (by simpa using h), ih]

theorem mem_gridCells (W H : Int) (cell : Int × Int) :
    cell ∈ gridCells W H ↔ (0 ≤ cell.1 ∧ cell.1 < W) ∧ (0 ≤ cell.2 ∧ cell.2 < H) := by
  simp only [gridCells, List.mem_flatMap, List.mem_map, List.mem_range]
  constructor
  · rintro ⟨y, hy, x, hx, rfl⟩
    simp only
    omega
  · rintro ⟨hx, hy⟩
    refine ⟨cell.2.toNat, by omega, cell.1.toNat, by omega, ?_⟩
    apply Prod.ext
    · simp only; omega
    · simp only; omega

theorem gridCells_nodup (W H : Int) : (gridCells W H).Nodup := by
  unfold gridCells
  rw [List.nodup_flatMap]
  refine ⟨?_, ?_⟩
  · intro y _
    refine (List.nodup_range _).map ?_
    intro a b h
    simpa using h
  · refine (List.nodup_range _).pairwise_of_forall_ne ?_
    intro y1 _ y2 _ hne
    simp only [Function.onFun, List.disjoint_left, List.mem_map, List.mem_range]
    rintro cell ⟨x1, _, rfl⟩ ⟨x2, _, h2⟩
    simp only [Prod.mk.injEq, Nat.cast_inj] at h2
    exact hne h2.2.symm

theorem lockedAt_loc (c : Consts) (env : Env Img) (img : Option Img) (W H : Int)
    (cell : Int × Int) (b : LockedBlockDesc) (h : lockedAt c env img W H cell = some b) :
    b.Loc = cell := by
  unfold lockedAt at h
  simp only at h
  split at h
  · simp only [Option.some.injEq] at h
    rw [← h]
  · exact absurd h (by simp)

theorem getLockedBlocksDesc_locs_sublist (c : Consts) (env : Env Img) (img : Option Img)
    (W H : Int) :
    ∀ cells : List (Int × Int),
      ((cells.filterMap (lockedAt c env img W H)).map (fun b => b.Loc)).Sublist cells := by
  intro cells
  induction cells with
  | nil => simp
  | cons cell cells ih =>
    rw [List.filterMap_cons]
    cases h : lockedAt c env img W H cell with
    | none => exact ih.trans (List.sublist_cons_self _ _)
    | some b =>
      simp only [List.map_cons]
      rw [lockedAt_loc c env img W H cell b h]
      exact ih.cons₂ _

/-- C4. Every `Loc` of a banned block returned by `convertBlockLtToBannedBlockDesc` (whatever
the coordinate mapper) and of a locked block returned by `getLockedBlocksDesc` lies in
`[0, W) × [0, H)`; the banned output is the input-order sublist of the pixel locations whose
mapped grid index is in bounds, each kept as `RawLoc` beside its grid index; the locked
output has pairwise distinct `Loc` values. -/
theorem block_locations_in_bounds (c : Consts) (env : Env Img) (img : Option Img) (W H : Int)
    (blocks : List (Int × Int)) :
    (∀ d ∈ convertBlockLtToBannedBlockDesc env W H blocks,
        (0 ≤ d.Loc.1 ∧ d.Loc.1 < W) ∧ (0 ≤ d.Loc.2 ∧ d.Loc.2 < H)) ∧
      convertBlockLtToBannedBlockDesc env W H blocks =
        (blocks.filter (fun b =>
          decide (0 ≤ (env.convertLTCoordToBoardCoord b.1 b.2 W H).1 ∧
            (env.convertLTCoordToBoardCoord b.1 b.2 W H).1 < W ∧
            0 ≤ (env.convertLTCoordToBoardCoord b.1 b.2 W H).2 ∧
            (env.convertLTCoordToBoardCoord b.1 b.2 W H).2 < H))).map
          (fun b => { Loc := env.convertLTCoordToBoardCoord b.1 b.2 W H, RawLoc := b }) ∧
      (∀ l ∈ getLockedBlocksDesc c env img W H,
        (0 ≤ l.Loc.1 ∧ l.Loc.1 < W) ∧ (0 ≤ l.Loc.2 ∧ l.Loc.2 < H)) ∧
      ((getLockedBlocksDesc c env img W H).map (fun l => l.Loc)).Nodup := by
  refine ⟨?_, convertBlockLtToBannedBlockDesc_eq env W H blocks, ?_, ?_⟩
  · intro d hd
    rw [convertBlockLtToBannedBlockDesc_eq, List.mem_map] at hd
    obtain ⟨b, hb, rfl⟩ := hd
    have := (List.mem_filter.1 hb).2
    simp only [decide_eq_true_eq] at this
    exact ⟨⟨this.1, this.2.1⟩, this.2.2.1, this.2.2.2⟩
  · intro l hl
    have hs := getLockedBlocksDesc_locs_sublist c env img W H (gridCells W H)
    have hm : l.Loc ∈ gridCells W H :=
      hs.subset (List.mem_map.2 ⟨l, hl, rfl⟩)
    exact (mem_gridCells W H l.Loc).1 hm
  · exact (gridCells_nodup W H).sublist
      (getLockedBlocksDesc_locs_sublist c env img W H (gridCells W H))

/-! ## Properties of the projection decoder -/

theorem mathRound_mono (x y : ℚ) (h : x ≤ y) : mathRound x ≤ mathRound y := by
  unfold mathRound
  by_cases hx : 0 ≤ x
  · rw [if_pos hx, if_pos (le_trans hx h)]
    exact Int.floor_mono (by linarith)
  · rw [if_neg hx]
    by_cases hy : 0 ≤ y
    · rw [if_pos hy]
      have h1 : ⌈x - 1 / 2⌉ ≤ 0 := Int.ceil_le.2 (by push_cast; linarith)
      have h2 : (0 : Int) ≤ ⌊y + 1 / 2⌋ := Int.le_floor.2 (by push_cast; linarith)
      exact le_trans h1 h2
    · rw [if_neg hy]
      exact Int.ceil_mono (by linarith)

theorem mathRound_intCast (k : Int) (hk : 0 ≤ k) : mathRound (k : ℚ) = k := by
  unfold mathRound
  rw [if_pos (by exact_mod_cast hk)]
  rw [Int.floor_eq_iff]
  constructor <;> linarith

theorem decodeOffset_eq_max (c : Consts) (m : Int) :
    decodeOffset c m =
      max 0 (mathRound (((m : ℚ) - c.BOARD_PROJ_INIT_GAP) / c.BOARD_PROJ_EACH_GAP)) := by
  unfold decodeOffset
  simp only
  split
  · rw [max_eq_left (by omega)]
  · rw [max_eq_right (by omega)]

theorem decodeOffset_mono (c : Consts) (hgap : 0 < c.BOARD_PROJ_EACH_GAP) (m1 m2 : Int)
    (h : m1 ≤ m2) : decodeOffset c m1 ≤ decodeOffset c m2 := by
  rw [decodeOffset_eq_max, decodeOffset_eq_max]
  apply max_le_max (le_refl 0)
  apply mathRound_mono
  apply div_le_div_of_nonneg_right _ (le_of_lt hgap)
  have : (m1 : ℚ) ≤ (m2 : ℚ) := by exact_mod_cast h
  linarith

theorem scanMaxOffset_succ (marked : Nat → Bool) (n : Nat) :
    scanMaxOffset marked (n + 1) =
      if marked n then (n : Int) + 1 else scanMaxOffset marked n := by
  unfold scanMaxOffset
  rw [List.range_succ, List.foldl_append]
  rfl

theorem scanMaxOffset_bounds (marked : Nat → Bool) :
    ∀ n : Nat, 0 ≤ scanMaxOffset marked n ∧ scanMaxOffset marked n ≤ n := by
  intro n
  induction n with
  | zero => simp [scanMaxOffset]
  | succ n ih =>
    rw [scanMaxOffset_succ]
    split
    · push_cast; omega
    · push_cast; omega

theorem scanMaxOffset_mono (m1 m2 : Nat → Bool) :
    ∀ n : Nat, (∀ i, i < n → m1 i = true → m2 i = true) →
      scanMaxOffset m1 n ≤ scanMaxOffset m2 n := by
  intro n
  induction n with
  | zero => intro _; simp [scanMaxOffset]
  | succ n ih =>
    intro h
    have ih1 := ih (fun i hi => h i (Nat.lt_succ_of_lt hi))
    rw [scanMaxOffset_succ, scanMaxOffset_succ]
    by_cases h1 : m1 n = true
    · rw [if_pos h1, if_pos (h n (Nat.lt_succ_self n) h1)]
    · rw [if_neg h1]
      split
      · have := (scanMaxOffset_bounds m1 n).2
        omega
      · exact ih1

theorem scanMaxOffset_unmarked (marked : Nat → Bool) :
    ∀ n : Nat, (∀ i, i < n → marked i = false) → scanMaxOffset marked n = 0 := by
  intro n
  induction n with
  | zero => intro _; simp [scanMaxOffset]
  | succ n ih =>
    intro h
    rw [scanMaxOffset_succ, h n (Nat.lt_succ_self n)]
    simpa using ih (fun i hi => h i (Nat.lt_succ_of_lt hi))

theorem scanMaxOffset_last (marked : Nat → Bool) (i : Nat) (hi : marked i = true) :
    ∀ n : Nat, i < n → (∀ j, i < j → j < n → marked j = false) →
      scanMaxOffset marked n = (i : Int) + 1 := by
  intro n
  induction n with
  | zero => intro h; exact absurd h (Nat.not_lt_zero i)
  | succ n ih =>
    intro hlt hafter
    rw [scanMaxOffset_succ]
    by_cases hn : i = n
    · rw [← hn, if_pos hi]
    · have hin : i < n := by omega
      rw [hafter n hin (Nat.lt_succ_self n)]
      simpa using ih hin (fun j h1 h2 => hafter j h1 (Nat.lt_succ_of_lt h2))

theorem markedExtent_unmarked (marked : Nat → Bool) (n : Nat)
    (h : ∀ i, i < n → marked i = false) : markedExtent marked n = 0 := by
  unfold markedExtent
  have : (List.range n).filter marked = [] := by
    rw [List.filter_eq_nil_iff]
    intro i hi
    rw [h i (List.mem_range.1 hi)]
    simp
  rw [this]
  rfl

theorem markedExtent_last (marked : Nat → Bool) (n i : Nat) (hi : marked i = true)
    (hlt : i < n) (hafter : ∀ j, i < j → j < n → marked j = false) :
    markedExtent marked n = i + 1 := by
  unfold markedExtent
  have : ((List.range n).filter marked).max? = some i := by
    rw [List.max?_eq_some_iff']
    refine ⟨List.mem_filter.2 ⟨List.mem_range.2 hlt, hi⟩, ?_⟩
    intro j hj
    obtain ⟨h1, h2⟩ := List.mem_filter.1 hj
    by_contra hgt
    have := hafter j (by omega) (List.mem_range.1 h1)
    rw [this] at h2
    exact absurd h2 (by simp)
  rw [this]

theorem markedExtent_succ (marked : Nat → Bool) (n : Nat) :
    markedExtent marked (n + 1) = if marked n then n + 1 else markedExtent marked n := by
  by_cases h : marked n = true
  · rw [if_pos h]
    exact markedExtent_last marked (n + 1) n h (Nat.lt_succ_self n) (fun j h1 h2 => by omega)
  · rw [if_neg h]
    unfold markedExtent
    rw [List.range_succ, List.filter_append, List.filter_cons_of_neg h, List.filter_nil,
      List.append_nil]

theorem scanMaxOffset_eq_markedExtent (marked : Nat → Bool) (n : Nat) :
    scanMaxOffset marked n = (markedExtent marked n : Int) := by
  induction n with
  | zero => rfl
  | succ n ih =>
    rw [scanMaxOffset_succ, markedExtent_succ]
    split
    · push_cast; rfl
    · exact ih

/-- C5. With `BOARD_PROJ_EACH_GAP > 0`, for either axis and two scans of the same figure
rectangle such that every step marked in the first scan is marked in the second, the number
decoded from the second scan is at least the number decoded from the first; in particular
the decoded number is non-decreasing in `maxOffset`. -/
theorem getProjFigureNumber_mono (c : Consts) (env1 env2 : Env Img) (img1 img2 : Option Img)
    (ltX ltY : Int) (axis : String) (hue1 hue2 : Int) (hgap : 0 < c.BOARD_PROJ_EACH_GAP)
    (hsub : ∀ i, i < scanSteps c axis →
      stepMarked c env1 img1 ltX ltY axis hue1 i = true →
      stepMarked c env2 img2 ltX ltY axis hue2 i = true) :
    getProjFigureNumber c env1 img1 ltX ltY axis hue1 ≤
        getProjFigureNumber c env2 img2 ltX ltY axis hue2 ∧
      ∀ m1 m2 : Int, m1 ≤ m2 → decodeOffset c m1 ≤ decodeOffset c m2 := by
  refine ⟨?_, decodeOffset_mono c hgap⟩
  unfold getProjFigureNumber
  exact decodeOffset_mono c hgap _ _ (scanMaxOffset_mono _ _ _ hsub)

/-- C6. For either axis and every pattern of marked steps, `getProjFigureNumber` returns
`max(0, round((e - BOARD_PROJ_INIT_GAP) / BOARD_PROJ_EACH_GAP))`, where the extent `e` is one
plus the largest marked step index (whatever is unmarked below it) and `0` when no step is
marked; with `BOARD_PROJ_EACH_GAP > 0` an extent of exactly
`BOARD_PROJ_INIT_GAP + k * BOARD_PROJ_EACH_GAP`, `k ≥ 0`, decodes to `k`. -/
theorem getProjFigureNumber_decodes_extent (c : Consts) (env : Env Img) (img : Option Img)
    (ltX ltY : Int) (axis : String) (targetHue : Int) :
    getProjFigureNumber c env img ltX ltY axis targetHue =
        max 0 (mathRound
          (((markedExtent (stepMarked c env img ltX ltY axis targetHue) (scanSteps c axis) : ℚ) -
            c.BOARD_PROJ_INIT_GAP) / c.BOARD_PROJ_EACH_GAP)) ∧
      ((∀ i, i < scanSteps c axis → stepMarked c env img ltX ltY axis targetHue i = false) →
        markedExtent (stepMarked c env img ltX ltY axis targetHue) (scanSteps c axis) = 0) ∧
      (∀ i, i < scanSteps c axis → stepMarked c env img ltX ltY axis targetHue i = true →
        (∀ j, i < j → j < scanSteps c axis →
          stepMarked c env img ltX ltY axis targetHue j = false) →
        markedExtent (stepMarked c env img ltX ltY axis targetHue) (scanSteps c axis) = i + 1) ∧
      (0 < c.BOARD_PROJ_EACH_GAP → ∀ k : Int, 0 ≤ k →
        ((markedExtent (stepMarked c env img ltX ltY axis targetHue) (scanSteps c axis) : ℚ) =
          c.BOARD_PROJ_INIT_GAP + (k : ℚ) * c.BOARD_PROJ_EACH_GAP) →
        getProjFigureNumber c env img ltX ltY axis targetHue = k) := by
  have hmain : getProjFigureNumber c env img ltX ltY axis targetHue =
        max 0 (mathRound
          (((markedExtent (stepMarked c env img ltX ltY axis targetHue) (scanSteps c axis) : ℚ) -
            c.BOARD_PROJ_INIT_GAP) / c.BOARD_PROJ_EACH_GAP)) := by
    unfold getProjFigureNumber
    rw [decodeOffset_eq_max, scanMaxOffset_eq_markedExtent]
    norm_cast
  refine ⟨hmain, markedExtent_unmarked _ _, ?_, ?_⟩
  · intro i hlt hi hafter
    exact markedExtent_last _ _ i hi hlt hafter
  · intro hgap k hk he
    rw [hmain, he]
    have : (c.BOARD_PROJ_INIT_GAP + (k : ℚ) * c.BOARD_PROJ_EACH_GAP - c.BOARD_PROJ_INIT_GAP) /
        c.BOARD_PROJ_EACH_GAP = (k : ℚ) := by
      field_simp
    rw [this, mathRound_intCast k hk]
    exact max_eq_right hk

/-! ## Properties of the thumbnail scan -/

theorem scanThumbs_over (c : Consts) (env : Env Img) (img : Option Img)
    (hth : c.PUZZLE_THUMBNAIL_COLOR_VAR_GRT ≤ c.PUZZLE_THUMBNAIL_COLOR_VAR_LES) :
    ∀ (cells : List (Nat × Nat)) (results : List (Int × Int)) (hasGap : Bool),
      (∃ cell ∈ cells, thumbVariance c env img cell > c.PUZZLE_THUMBNAIL_COLOR_VAR_LES) →
      scanThumbs c env img cells results hasGap = none := by
  intro cells
  induction cells with
  | nil => intro _ _ h; simp at h
  | cons cell cells ih =>
    intro results hasGap h
    simp only [scanThumbs]
    by_cases h1 : thumbVariance c env img cell > c.PUZZLE_THUMBNAIL_COLOR_VAR_LES
    · rw [if_pos (lt_of_le_of_lt hth h1), if_pos h1]
    · have hrest : ∃ cell ∈ cells,
          thumbVariance c env img cell > c.PUZZLE_THUMBNAIL_COLOR_VAR_LES := by
        obtain ⟨x, hx, hv⟩ := h
        rcases List.mem_cons.1 hx with rfl | hx
        · exact absurd hv h1
        · exact ⟨x, hx, hv⟩
      rw [if_neg h1]
      split
      · split
        · rfl
        · exact ih _ _ hrest
      · exact ih _ _ hrest

theorem scanThumbs_after_gap (c : Consts) (env : Env Img) (img : Option Img) :
    ∀ (cells : List (Nat × Nat)) (results : List (Int × Int)),
      (∃ cell ∈ cells, thumbVariance c env img cell > c.PUZZLE_THUMBNAIL_COLOR_VAR_GRT) →
      scanThumbs c env img cells results true = none := by
  intro cells
  induction cells with
  | nil => intro _ h; simp at h
  | cons cell cells ih =>
    intro results h
    simp only [scanThumbs]
    split
    · split
      · rfl
      · rfl
    · rename_i h1
      obtain ⟨x, hx, hv⟩ := h
      rcases List.mem_cons.1 hx with rfl | hx
      · exact absurd hv h1
      · exact ih _ ⟨x, hx, hv⟩

theorem scanThumbs_gap_then_candidate (c : Consts) (env : Env Img) (img : Option Img)
    (g q : Nat × Nat)
    (hg : ¬ thumbVariance c env img g > c.PUZZLE_THUMBNAIL_COLOR_VAR_GRT)
    (hq : thumbVariance c env img q > c.PUZZLE_THUMBNAIL_COLOR_VAR_GRT) :
    ∀ (cells : List (Nat × Nat)) (results : List (Int × Int)) (hasGap : Bool),
      List.Sublist [g, q] cells → scanThumbs c env img cells results hasGap = none := by
  intro cells
  induction cells with
  | nil => intro _ _ h; simp at h
  | cons cell cells ih =>
    intro results hasGap h
    cases h with
    | cons _ h1 =>
      simp only [scanThumbs]
      split
      · split
        · rfl
        · split
          · rfl
          · exact ih _ _ h1
      · exact ih _ _ h1
    | cons₂ _ h1 =>
      simp only [scanThumbs]
      rw [if_neg hg]
      exact scanThumbs_after_gap c env img cells results
        ⟨q, List.singleton_sublist.1 h1, hq⟩

theorem scanThumbs_all_candidates (c : Consts) (env : Env Img) (img : Option Img) :
    ∀ (cells : List (Nat × Nat)) (results : List (Int × Int)) (hasGap : Bool),
      (∀ cell ∈ cells, thumbVariance c env img cell > c.PUZZLE_THUMBNAIL_COLOR_VAR_GRT) →
      scanThumbs c env img cells results hasGap = none ∨
        ∃ r, scanThumbs c env img cells results hasGap = some r ∧
          r.length = results.length + cells.length := by
  intro cells
  induction cells with
  | nil => intro results _ _; exact Or.inr ⟨results, rfl, rfl⟩
  | cons cell cells ih =>
    intro results hasGap h
    simp only [scanThumbs]
    rw [if_pos (h cell (List.mem_cons_self _ _))]
    split
    · exact Or.inl rfl
    · split
      · exact Or.inl rfl
      · rcases ih (results ++ [thumbLoc c cell]) hasGap
          (fun x hx => h x (List.mem_cons_of_mem _ hx)) with h1 | ⟨r, h1, h2⟩
        · exact Or.inl h1
        · refine Or.inr ⟨r, h1, ?_⟩
          rw [h2, List.length_append, List.length_singleton, List.length_cons]
          omega

theorem mem_thumbCells (c : Consts) (cell : Nat × Nat) :
    cell ∈ thumbCells c ↔
      (cell.1 : Int) < c.PUZZLE_THUMBNAIL_MAX_ROWS ∧ (cell.2 : Int) < c.PUZZLE_THUMBNAIL_MAX_COLS := by
  simp only [thumbCells, List.mem_flatMap, List.mem_map, List.mem_range]
  constructor
  · rintro ⟨r, hr, col, hc, rfl⟩
    simp only
    omega
  · rintro ⟨hr, hc⟩
    exact ⟨cell.1, by omega, cell.2, by omega, rfl⟩

theorem thumbCells_length (c : Consts) :
    (thumbCells c).length =
      c.PUZZLE_THUMBNAIL_MAX_ROWS.toNat * c.PUZZLE_THUMBNAIL_MAX_COLS.toNat := by
  simp [thumbCells, List.length_flatMap, Function.comp_def]

theorem thumbCells_pairwise (c : Consts) :
    (thumbCells c).Pairwise (fun a b => a.1 < b.1 ∨ (a.1 = b.1 ∧ a.2 < b.2)) := by
  unfold thumbCells
  rw [List.pairwise_flatMap]
  refine ⟨?_, ?_⟩
  · intro r _
    rw [List.pairwise_map]
    exact (List.pairwise_lt_range _).imp (fun h => Or.inr ⟨rfl, h⟩)
  · refine (List.pairwise_lt_range _).imp ?_
    intro r1 r2 hlt a ha b hb
    simp only [List.mem_map, List.mem_range] at ha hb
    obtain ⟨_, _, rfl⟩ := ha
    obtain ⟨_, _, rfl⟩ := hb
    exact Or.inl hlt

theorem sublist_pair_of_pairwise (R : Nat × Nat → Nat × Nat → Prop)
    (hasym : ∀ a b, R a b → ¬ R b a) (hirr : ∀ a, ¬ R a a) (g q : Nat × Nat) (hR : R g q) :
    ∀ l : List (Nat × Nat), l.Pairwise R → g ∈ l → q ∈ l → List.Sublist [g, q] l := by
  intro l
  induction l with
  | nil => intro _ h; simp at h
  | cons a l ih =>
    intro hp hg hq
    rw [List.pairwise_cons] at hp
    rcases List.mem_cons.1 hg with rfl | hg1
    · rcases List.mem_cons.1 hq with rfl | hq1
      · exact absurd hR (hirr _)
      · exact (List.singleton_sublist.2 hq1).cons₂ _
    · rcases List.mem_cons.1 hq with rfl | hq1
      · exact absurd hR (hasym _ _ (hp.1 g hg1))
      · exact (ih hp.2 hg1 hq1).cons _

/-- C7. With the upper variance threshold not below the lower one, `getAllPuzzleThumbLoc`
returns the empty list whenever (a) some cell of the grid has variance above the upper
threshold, or (b) a cell with variance not above the lower threshold precedes, in row-major
order, a cell with variance above the lower threshold, or (c) every cell of the grid has
variance above the lower threshold. -/
theorem getAllPuzzleThumbLoc_rejects (c : Consts) (env : Env Img) (img : Option Img)
    (hth : c.PUZZLE_THUMBNAIL_COLOR_VAR_GRT ≤ c.PUZZLE_THUMBNAIL_COLOR_VAR_LES)
    (h : (∃ r col : Nat, (r : Int) < c.PUZZLE_THUMBNAIL_MAX_ROWS ∧
            (col : Int) < c.PUZZLE_THUMBNAIL_MAX_COLS ∧
            thumbVariance c env img (r, col) > c.PUZZLE_THUMBNAIL_COLOR_VAR_LES) ∨
         (∃ r1 c1 r2 c2 : Nat,
            ((r1 : Int) < c.PUZZLE_THUMBNAIL_MAX_ROWS ∧ (c1 : Int) < c.PUZZLE_THUMBNAIL_MAX_COLS) ∧
            ((r2 : Int) < c.PUZZLE_THUMBNAIL_MAX_ROWS ∧ (c2 : Int) < c.PUZZLE_THUMBNAIL_MAX_COLS) ∧
            (r1 < r2 ∨ (r1 = r2 ∧ c1 < c2)) ∧
            thumbVariance c env img (r1, c1) ≤ c.PUZZLE_THUMBNAIL_COLOR_VAR_GRT ∧
            thumbVariance c env img (r2, c2) > c.PUZZLE_THUMBNAIL_COLOR_VAR_GRT) ∨
         (∀ r col : Nat, (r : Int) < c.PUZZLE_THUMBNAIL_MAX_ROWS →
            (col : Int) < c.PUZZLE_THUMBNAIL_MAX_COLS →
            thumbVariance c env img (r, col) > c.PUZZLE_THUMBNAIL_COLOR_VAR_GRT)) :
    getAllPuzzleThumbLoc c env img = [] := by
  unfold getAllPuzzleThumbLoc
  rcases h with ⟨r, col, hr, hc, hv⟩ | ⟨r1, c1, r2, c2, h1, h2, hlex, hg, hq⟩ | hall
  · rw [scanThumbs_over c env img hth (thumbCells c) [] false
      ⟨(r, col), (mem_thumbCells c (r, col)).2 ⟨hr, hc⟩, hv⟩]
  · have hsub : List.Sublist [(r1, c1), (r2, c2)] (thumbCells c) :=
      sublist_pair_of_pairwise (fun a b => a.1 < b.1 ∨ (a.1 = b.1 ∧ a.2 < b.2))
        (fun a b hab hba => by omega) (fun a ha => by omega) (r1, c1) (r2, c2) hlex
        (thumbCells c) (thumbCells_pairwise c) ((mem_thumbCells c _).2 h1)
        ((mem_thumbCells c _).2 h2)
    rw [scanThumbs_gap_then_candidate c env img (r1, c1) (r2, c2) (not_lt.2 hg) hq
      (thumbCells c) [] false hsub]
  · rcases scanThumbs_all_candidates c env img (thumbCells c) [] false
      (fun cell hcell => hall cell.1 cell.2 ((mem_thumbCells c cell).1 hcell).1
        ((mem_thumbCells c cell).1 hcell).2) with hn | ⟨r, hr, hlen⟩
    · rw [hn]
    · rw [hr]
      simp only
      rw [thumbCells_length, List.length_nil, Nat.zero_add] at hlen
      by_cases hpos : 0 ≤ c.PUZZLE_THUMBNAIL_MAX_ROWS ∧ 0 ≤ c.PUZZLE_THUMBNAIL_MAX_COLS
      · rw [if_pos]
        rw [hlen]
        push_cast
        rw [Int.toNat_of_nonneg hpos.1, Int.toNat_of_nonneg hpos.2]
      · have hz : r.length = 0 := by
          rw [hlen]
          by_cases hr0 : 0 ≤ c.PUZZLE_THUMBNAIL_MAX_ROWS
          · have : c.PUZZLE_THUMBNAIL_MAX_COLS.toNat = 0 := by omega
            rw [this, Nat.mul_zero]
          · have : c.PUZZLE_THUMBNAIL_MAX_ROWS.toNat = 0 := by omega
            rw [this, Nat.zero_mul]
        have hnil : r = [] := List.length_eq_zero.1 hz
        rw [hnil]
        split <;> rfl

/-! ## Properties of the geometry estimator -/

/-- C8. With `BOARD_MAX_EXTENT_ONE_SIDE ≥ 1` (so that there is a candidate), for each axis
with a non-empty match list and whatever the iteration order of the score map, the dimension
`getPossibleBoardSize` picks is a candidate in `[2, 2*BOARD_MAX_EXTENT_ONE_SIDE+1]` whose
accumulated score is maximal over all candidates and which is the largest candidate with
that score; replacing the iteration order by any other leaves the result unchanged. -/
theorem getPossibleBoardSize_picks_largest_best (c : Consts) (env : Env Img) (img : Option Img)
    (hmax : 1 ≤ c.BOARD_MAX_EXTENT_ONE_SIDE) :
    (xMatchesOf c env img ≠ [] →
      (2 ≤ (getPossibleBoardSize c env img).2 ∧
        (getPossibleBoardSize c env img).2 ≤ 2 * c.BOARD_MAX_EXTENT_ONE_SIDE + 1) ∧
      ∀ d, 2 ≤ d → d ≤ 2 * c.BOARD_MAX_EXTENT_ONE_SIDE + 1 →
        axisScore c.BOARD_CENTER_BLOCK_LT_Y c.BOARD_BLOCK_H (fun m => m.CenterY)
            (xMatchesOf c env img) d ≤
          axisScore c.BOARD_CENTER_BLOCK_LT_Y c.BOARD_BLOCK_H (fun m => m.CenterY)
            (xMatchesOf c env img) (getPossibleBoardSize c env img).2 ∧
        (axisScore c.BOARD_CENTER_BLOCK_LT_Y c.BOARD_BLOCK_H (fun m => m.CenterY)
            (xMatchesOf c env img) d =
          axisScore c.BOARD_CENTER_BLOCK_LT_Y c.BOARD_BLOCK_H (fun m => m.CenterY)
            (xMatchesOf c env img) (getPossibleBoardSize c env img).2 →
          d ≤ (getPossibleBoardSize c env img).2)) ∧
    (yMatchesOf c env img ≠ [] →
      (2 ≤ (getPossibleBoardSize c env img).1 ∧
        (getPossibleBoardSize c env img).1 ≤ 2 * c.BOARD_MAX_EXTENT_ONE_SIDE + 1) ∧
      ∀ d, 2 ≤ d → d ≤ 2 * c.BOARD_MAX_EXTENT_ONE_SIDE + 1 →
        axisScore c.BOARD_CENTER_BLOCK_LT_X c.BOARD_BLOCK_W (fun m => m.CenterX)
            (yMatchesOf c env img) d ≤
          axisScore c.BOARD_CENTER_BLOCK_LT_X c.BOARD_BLOCK_W (fun m => m.CenterX)
            (yMatchesOf c env img) (getPossibleBoardSize c env img).1 ∧
        (axisScore c.BOARD_CENTER_BLOCK_LT_X c.BOARD_BLOCK_W (fun m => m.CenterX)
            (yMatchesOf c env img) d =
          axisScore c.BOARD_CENTER_BLOCK_LT_X c.BOARD_BLOCK_W (fun m => m.CenterX)
            (yMatchesOf c env img) (getPossibleBoardSize c env img).1 →
          d ≤ (getPossibleBoardSize c env img).1)) ∧
    (∀ order : MapOrder,
      getPossibleBoardSize c { env with mapOrder := order } img =
        getPossibleBoardSize c env img) := by
  refine ⟨fun hx => ?_, fun hy => ?_, fun order => ?_⟩
  · exact estimateAxis_spec c env _ _ _ _ hx hmax
  · exact estimateAxis_spec c env _ _ _ _ hy hmax
  · unfold getPossibleBoardSize
    simp only
    rw [estimateAxis_order_irrelevant c { env with mapOrder := order } env,
      estimateAxis_order_irrelevant c { env with mapOrder := order } env]
    rfl

theorem Run_at_geometry (c : Consts) (env : Env Img) (arg : CustomRecognitionArg Img)
    (tr : List Event) (i : Img) (himg : arg.Img = some i)
    (hp : (getAllPuzzleDesc c env arg.Img tr).1 ≠ []) :
    ((Run c env arg tr).1 = (none, false) ↔
      ((getPossibleBoardSize c env
          (doEnsureTab c env arg.Img (getAllPuzzleDesc c env arg.Img tr).2).1).1 = 0 ∨
        (getPossibleBoardSize c env
          (doEnsureTab c env arg.Img (getAllPuzzleDesc c env arg.Img tr).2).1).2 = 0)) := by
  have hlen : ¬ (getAllPuzzleDesc c env arg.Img tr).1.length = 0 := by
    intro h
    exact hp (List.length_eq_zero.1 h)
  unfold Run
  rw [himg] at hlen ⊢
  simp only
  rw [if_neg hlen]
  split
  · rename_i h
    simp only [true_iff]
    exact h
  · rename_i h
    obtain ⟨st, hst⟩ := perHueLoop_isSome c env
      (doEnsureTab c env (some i) (getAllPuzzleDesc c env (some i) tr).2).1 _ _
      (getPossibleBoardSize_nonneg c env _).1 (getPossibleBoardSize_nonneg c env _).2
      (getPossibleHues c env (getAllPuzzleDesc c env (some i) tr).1)
      (perHueInit (getLockedBlocksDesc c env
        (doEnsureTab c env (some i) (getAllPuzzleDesc c env (some i) tr).2).1
        (getPossibleBoardSize c env
          (doEnsureTab c env (some i) (getAllPuzzleDesc c env (some i) tr).2).1).1
        (getPossibleBoardSize c env
          (doEnsureTab c env (some i) (getAllPuzzleDesc c env (some i) tr).2).1).2))
    rw [hst]
    simp only [Prod.mk.injEq, Bool.true_eq_false, and_false, false_iff]
    exact h

/-- C9. `getPossibleBoardSize` returns `0` for an axis whose marker has no match (the height
from the markers matched in the upper half, the width from those in the left half) and, given
`BOARD_MAX_EXTENT_ONE_SIDE ≥ 1`, a value in `[2, 2*BOARD_MAX_EXTENT_ONE_SIDE+1]` for an axis
with at least one match; `Run`, once it has an image and at least one puzzle, returns
`(nil, false)` exactly when one of the two match lists on the refreshed image is empty. -/
theorem getPossibleBoardSize_zero_iff_no_match (c : Consts) (env : Env Img)
    (arg : CustomRecognitionArg Img) (tr : List Event) (i : Img)
    (hmax : 1 ≤ c.BOARD_MAX_EXTENT_ONE_SIDE) (himg : arg.Img = some i)
    (hp : (getAllPuzzleDesc c env arg.Img tr).1 ≠ []) :
    (∀ img, xMatchesOf c env img = [] → (getPossibleBoardSize c env img).2 = 0) ∧
    (∀ img, yMatchesOf c env img = [] → (getPossibleBoardSize c env img).1 = 0) ∧
    (∀ img, xMatchesOf c env img ≠ [] →
      2 ≤ (getPossibleBoardSize c env img).2 ∧
        (getPossibleBoardSize c env img).2 ≤ 2 * c.BOARD_MAX_EXTENT_ONE_SIDE + 1) ∧
    (∀ img, yMatchesOf c env img ≠ [] →
      2 ≤ (getPossibleBoardSize c env img).1 ∧
        (getPossibleBoardSize c env img).1 ≤ 2 * c.BOARD_MAX_EXTENT_ONE_SIDE + 1) ∧
    ((Run c env arg tr).1 = (none, false) ↔
      (xMatchesOf c env
          (doEnsureTab c env arg.Img (getAllPuzzleDesc c env arg.Img tr).2).1 = [] ∨
        yMatchesOf c env
          (doEnsureTab c env arg.Img (getAllPuzzleDesc c env arg.Img tr).2).1 = [])) := by
  have hx0 : ∀ img, xMatchesOf c env img = [] → (getPossibleBoardSize c env img).2 = 0 := by
    intro img h
    unfold getPossibleBoardSize
    simp only
    rw [h, estimateAxis_nil]
  have hy0 : ∀ img, yMatchesOf c env img = [] → (getPossibleBoardSize c env img).1 = 0 := by
    intro img h
    unfold getPossibleBoardSize
    simp only
    rw [h, estimateAxis_nil]
  have hx1 : ∀ img, xMatchesOf c env img ≠ [] →
      2 ≤ (getPossibleBoardSize c env img).2 ∧
        (getPossibleBoardSize c env img).2 ≤ 2 * c.BOARD_MAX_EXTENT_ONE_SIDE + 1 :=
    fun img h => (estimateAxis_spec c env _ _ _ _ h hmax).1
  have hy1 : ∀ img, yMatchesOf c env img ≠ [] →
      2 ≤ (getPossibleBoardSize c env img).1 ∧
        (getPossibleBoardSize c env img).1 ≤ 2 * c.BOARD_MAX_EXTENT_ONE_SIDE + 1 :=
    fun img h => (estimateAxis_spec c env _ _ _ _ h hmax).1
  refine ⟨hx0, hy0, hx1, hy1, ?_⟩
  rw [Run_at_geometry c env arg tr i himg hp]
  constructor
  · rintro (h | h)
    · right
      by_contra hne
      have := (hy1 _ hne).1
      omega
    · left
      by_contra hne
      have := (hx1 _ hne).1
      omega
  · rintro (h | h)
    · exact Or.inr (hx0 _ h)
    · exact Or.inl (hy0 _ h)

theorem axisScore_fold_eq (anchor block : ℚ) (centre : MatchResult → Int) (d : Int) :
    ∀ (ms : List MatchResult) (init : ℚ),
      ms.foldl
        (fun score m =>
          let delta := expectedPos anchor block d - (centre m : ℚ)
          if 0 < delta ∧ delta < block * cropFactor then score + m.Score * m.Score else score)
        init =
      init + ((ms.filter (fun m =>
        decide (0 < expectedPos anchor block d - (centre m : ℚ) ∧
          expectedPos anchor block d - (centre m : ℚ) < cropFactor * block))).map
        (fun m => m.Score * m.Score)).sum := by
  intro ms
  induction ms with
  | nil => intro init; simp
  | cons m ms ih =>
    intro init
    simp only [List.foldl_cons, List.filter_cons]
    rw [ih]
    by_cases h : 0 < expectedPos anchor block d - (centre m : ℚ) ∧
        expectedPos anchor block d - (centre m : ℚ) < cropFactor * block
    · have h2 : 0 < expectedPos anchor block d - (centre m : ℚ) ∧
          expectedPos anchor block d - (centre m : ℚ) < block * cropFactor := by
        rw [mul_comm]; exact h
      rw [if_pos h2, if_pos (by simpa using h), List.map_cons, List.sum_cons]
      ring
    · have h2 : ¬ (0 < expectedPos anchor block d - (centre m : ℚ) ∧
          expectedPos anchor block d - (centre m : ℚ) < block * cropFactor) := by
        rw [mul_comm]; exact h
      rw [if_neg h2, if_neg (by simpa using h)]

/-- C10 as the code has it. For every candidate dimension `d` and every match list, the score
accumulated for `d` is the sum of `Score*Score` over exactly those matches whose observed
centre lies before the expected position by less than one cropped block-length:
`0 < expected(d) - observed < 0.8 * block`, with
`expected(d) = anchor - ((d-1)/2) * block - 0.075 * block`; this is the value stored for `d`
in the score map. -/
theorem axisScore_eq_one_sided_window_sum (maxExtent : Int) (anchor block : ℚ)
    (centre : MatchResult → Int) (ms : List MatchResult) (d : Int) :
    axisScore anchor block centre ms d =
        ((ms.filter (fun m =>
          decide (0 < expectedPos anchor block d - (centre m : ℚ) ∧
            expectedPos anchor block d - (centre m : ℚ) < cropFactor * block))).map
          (fun m => m.Score * m.Score)).sum ∧
      expectedPos anchor block d =
        anchor - ((d : ℚ) - 1) / 2 * block - (75 / 1000) * block ∧
      cropFactor = 8 / 10 ∧
      (∀ e ∈ scoreEntries maxExtent anchor block centre ms,
        e.2 = axisScore anchor block centre ms e.1) := by
  refine ⟨?_, ?_, rfl, ?_⟩
  · unfold axisScore
    rw [axisScore_fold_eq, zero_add]
  · unfold expectedPos biasFactor
    push_cast
    ring
  · intro e he
    exact ((mem_scoreEntries maxExtent anchor block centre ms e).1 he).2

/-- C10 as stated fails. With anchor 300 and block length 60 the expected position of
dimension 2 is 265.5; a match centred at 266 lies 0.5 beyond it, hence within one cropped
block-length (48) in absolute value, yet it adds nothing to the score of dimension 2. -/
theorem axisScore_ne_absWindowScore :
    expectedPos 300 60 2 = 531 / 2 ∧
      axisScore 300 60 (fun m => m.CenterY)
        [{ X := 560, Y := 256, CenterX := 570, CenterY := 266, Score := 1 }] 2 = 0 ∧
      absWindowScore 300 60 (fun m => m.CenterY)
        [{ X := 560, Y := 256, CenterX := 570, CenterY := 266, Score := 1 }] 2 = 1 := by
  decide!

/-! ## The theorems at the sample input -/

/-- Witness of C1: `Run` succeeds on the sample input with the sample board, whose three
per-hue lists all have length two. -/
theorem Run_parallel_lists_witness :
    (Run sampleConsts sampleEnv sampleArg []).1 = (some sampleResult, true) ∧
      sampleBoard.ProjDescList.length = sampleBoard.LockedBlockList.length ∧
      sampleBoard.LockedBlockList.length = sampleBoard.HueList.length ∧
      sampleBoard.HueList = getPossibleHues sampleConsts sampleEnv sampleBoard.PuzzleList :=
  ⟨by decide!,
    Run_parallel_lists sampleConsts sampleEnv sampleArg [] sampleResult sampleBoard
      (by decide!) rfl⟩

/-- Witness of C2: the projection lists of the sample two-by-two board for hue 75. -/
theorem getProjDesc_shape_witness :
    getProjDesc sampleConsts sampleEnv (some 13) (2, 2) 75 =
        { XProjList := [1, 0], YProjList := [3, 0] } ∧
      ((getProjDesc sampleConsts sampleEnv (some 13) (2, 2) 75).XProjList.length : Int) = 2 ∧
      ((getProjDesc sampleConsts sampleEnv (some 13) (2, 2) 75).YProjList.length : Int) = 2 :=
  ⟨by decide!,
    (getProjDesc_shape sampleConsts sampleEnv (some 13) 2 2 75 (by decide) (by decide)).1,
    (getProjDesc_shape sampleConsts sampleEnv (some 13) 2 2 75 (by decide) (by decide)).2.1⟩

/-- Witness of C3: the sample pool split over the hues 75, 79 and 200; the block of hue 80
is taken by the first hue and does not reappear under the second. -/
theorem perHueLoop_partitions_pool_witness :
    (perHueLoop sampleConsts sampleEnv (some 13) (2, 2) [75, 79, 200]
        (perHueInit samplePool)).map (fun st => st.lockedBlockList) =
      some [[{ Loc := (0, 0), RawLoc := (570, 270), Hue := 77 },
             { Loc := (1, 1), RawLoc := (630, 330), Hue := 80 }],
            [],
            [{ Loc := (0, 1), RawLoc := (570, 330), Hue := 205 }]] ∧
    ∃ st, perHueLoop sampleConsts sampleEnv (some 13) (2, 2) [75, 79, 200]
        (perHueInit samplePool) = some st ∧
      st.lockedBlockList.length = [(75 : Int), 79, 200].length ∧
      (st.lockedBlockList.flatten ++ st.locked.reduceOption).Perm samplePool ∧
      (∀ b, ((st.lockedBlockList.map (fun part => part.count b)).sum ≤ samplePool.count b)) ∧
      (samplePool.Nodup → st.lockedBlockList.flatten.Nodup) ∧
      (st.lockedBlockList.map List.length).sum ≤ samplePool.length :=
  ⟨by decide!,
    perHueLoop_partitions_pool sampleConsts sampleEnv (some 13) 2 2 [75, 79, 200] samplePool
      (by decide) (by decide)⟩

/-- Witness of C5: on the sample frame no step of the first column figure is marked for hue
200 and two are for hue 75; the decoded numbers are 0 and 1. -/
theorem getProjFigureNumber_mono_witness :
    getProjFigureNumber sampleConsts sampleEnv (some 13) 570 266 "X" 200 = 0 ∧
      getProjFigureNumber sampleConsts sampleEnv (some 13) 570 266 "X" 75 = 1 ∧
      getProjFigureNumber sampleConsts sampleEnv (some 13) 570 266 "X" 200 ≤
        getProjFigureNumber sampleConsts sampleEnv (some 13) 570 266 "X" 75 :=
  ⟨by decide!, by decide!,
    (getProjFigureNumber_mono sampleConsts sampleEnv sampleEnv (some 13) (some 13) 570 266 "X"
      200 75 (by decide!) (by decide!)).1⟩

/-- Witness of C7: the three rejections on the sample grid of two rows and two columns: a
first cell of variance 5000, a first cell of variance 0 followed by one of variance 50, and
variance 50 everywhere. -/
theorem getAllPuzzleThumbLoc_rejects_witness :
    getAllPuzzleThumbLoc sampleConsts
        (sampleEnvWithVariance (fun r => if r.MinX = 1000 ∧ r.MinY = 100 then 5000 else 0))
        (some 0) = [] ∧
      getAllPuzzleThumbLoc sampleConsts
        (sampleEnvWithVariance (fun r => if r.MinX = 1100 ∧ r.MinY = 100 then 50 else 0))
        (some 0) = [] ∧
      getAllPuzzleThumbLoc sampleConsts (sampleEnvWithVariance (fun _ => 50)) (some 0) = [] :=
  ⟨getAllPuzzleThumbLoc_rejects sampleConsts _ (some 0) (by decide!)
      (Or.inl ⟨0, 0, by decide, by decide, by decide!⟩),
    getAllPuzzleThumbLoc_rejects sampleConsts _ (some 0) (by decide!)
      (Or.inr (Or.inl ⟨0, 0, 0, 1, by decide, by decide, by decide, by decide!, by decide!⟩)),
    getAllPuzzleThumbLoc_rejects sampleConsts _ (some 0) (by decide!)
      (Or.inr (Or.inr (fun _ _ _ _ => show (10 : ℚ) < 50 by norm_num)))⟩

/-- Witness of C8: on the sample frame both dimensions are estimated as 2, the only
candidate with a positive score. -/
theorem getPossibleBoardSize_picks_largest_best_witness :
    getPossibleBoardSize sampleConsts sampleEnv (some 13) = (2, 2) ∧
      (∀ order : MapOrder,
        getPossibleBoardSize sampleConsts { sampleEnv with mapOrder := order } (some 13) =
          getPossibleBoardSize sampleConsts sampleEnv (some 13)) :=
  ⟨by decide!,
    (getPossibleBoardSize_picks_largest_best sampleConsts sampleEnv (some 13)
      (by decide)).2.2⟩

/-- Witness of C9: on the sample input both match lists are non-empty and `Run` does not
return `(nil, false)`. -/
theorem getPossibleBoardSize_zero_iff_no_match_witness :
    (getAllPuzzleDesc sampleConsts sampleEnv sampleArg.Img []).1 ≠ [] ∧
      ((Run sampleConsts sampleEnv sampleArg []).1 = (none, false) ↔
        (xMatchesOf sampleConsts sampleEnv
            (doEnsureTab sampleConsts sampleEnv sampleArg.Img
              (getAllPuzzleDesc sampleConsts sampleEnv sampleArg.Img []).2).1 = [] ∨
          yMatchesOf sampleConsts sampleEnv
            (doEnsureTab sampleConsts sampleEnv sampleArg.Img
              (getAllPuzzleDesc sampleConsts sampleEnv sampleArg.Img []).2).1 = [])) :=
  ⟨by decide!,
    (getPossibleBoardSize_zero_iff_no_match sampleConsts sampleEnv sampleArg [] 0 (by decide)
      rfl (by decide!)).2.2.2.2⟩

/-- Witness of C4: of the two banned markers of the sample frame the one beside the
two-by-two board is dropped; the two locked cells found have distinct grid locations. -/
theorem block_locations_in_bounds_witness :
    convertBlockLtToBannedBlockDesc sampleEnv 2 2 [(570, 270), (700, 270)] =
        [{ Loc := (0, 0), RawLoc := (570, 270) }] ∧
      getLockedBlocksDesc sampleConsts sampleEnv (some 13) 2 2 =
        [{ Loc := (0, 0), RawLoc := (570, 270), Hue := 77 },
         { Loc := (0, 1), RawLoc := (570, 330), Hue := 205 }] ∧
      ((getLockedBlocksDesc sampleConsts sampleEnv (some 13) 2 2).map (fun l => l.Loc)).Nodup :=
  ⟨by decide!, by decide!,
    (block_locations_in_bounds sampleConsts sampleEnv (some 13) 2 2
      [(570, 270), (700, 270)]).2.2.2⟩

/-- Witness of C6: in the first row figure of the sample frame all four steps are marked for
hue 75; the extent 4 is `BOARD_PROJ_INIT_GAP + 3 * BOARD_PROJ_EACH_GAP` and decodes to 3. -/
theorem getProjFigureNumber_decodes_extent_witness :
    markedExtent (stepMarked sampleConsts sampleEnv (some 13) 566 270 "Y" 75)
        (scanSteps sampleConsts "Y") = 4 ∧
      getProjFigureNumber sampleConsts sampleEnv (some 13) 566 270 "Y" 75 = 3 :=
  ⟨by decide!,
    (getProjFigureNumber_decodes_extent sampleConsts sampleEnv (some 13) 566 270 "Y" 75).2.2.2
      (by decide!) 3 (by decide) (by decide!)⟩

/-! ## Consistent and inconsistent marker matches -/

theorem axisScore_eq_filter_sum (anchor block : ℚ) (centre : MatchResult → Int)
    (ms : List MatchResult) (d : Int) :
    axisScore anchor block centre ms d =
      ((ms.filter (fun m =>
        decide (0 < expectedPos anchor block d - (centre m : ℚ) ∧
          expectedPos anchor block d - (centre m : ℚ) < cropFactor * block))).map
        (fun m => m.Score * m.Score)).sum := by
  unfold axisScore
  rw [axisScore_fold_eq, zero_add]

theorem sum_sq_filter_le (p : MatchResult → Bool) :
    ∀ ms : List MatchResult,
      ((ms.filter p).map (fun m => m.Score * m.Score)).sum ≤
        (ms.map (fun m => m.Score * m.Score)).sum := by
  intro ms
  induction ms with
  | nil => simp
  | cons m ms ih =>
    rw [List.filter_cons]
    split
    · simp only [List.map_cons, List.sum_cons]
      linarith
    · simp only [List.map_cons, List.sum_cons]
      have := mul_self_nonneg m.Score
      linarith

theorem sum_sq_pos :
    ∀ ms : List MatchResult, ms ≠ [] → (∀ m ∈ ms, m.Score ≠ 0) →
      0 < (ms.map (fun m => m.Score * m.Score)).sum := by
  intro ms
  induction ms with
  | nil => intro h; exact absurd rfl h
  | cons m ms ih =>
    intro _ hall
    simp only [List.map_cons, List.sum_cons]
    have h1 : 0 < m.Score * m.Score := mul_self_pos.2 (hall m (List.mem_cons_self _ _))
    have h2 : 0 ≤ (ms.map (fun m => m.Score * m.Score)).sum :=
      List.sum_nonneg (by
        intro x hx
        obtain ⟨a, _, rfl⟩ := List.mem_map.1 hx
        exact mul_self_nonneg _)
    linarith

theorem axisScore_eq_zero (anchor block : ℚ) (centre : MatchResult → Int)
    (ms : List MatchResult) (d : Int)
    (h : ∀ m ∈ ms, m.Score = 0 ∨
      ¬ (0 < expectedPos anchor block d - (centre m : ℚ) ∧
        expectedPos anchor block d - (centre m : ℚ) < cropFactor * block)) :
    axisScore anchor block centre ms d = 0 := by
  rw [axisScore_eq_filter_sum]
  apply List.sum_eq_zero
  intro x hx
  obtain ⟨m, hm, rfl⟩ := List.mem_map.1 hx
  obtain ⟨hm1, hm2⟩ := List.mem_filter.1 hm
  rcases h m hm1 with h0 | hw
  · rw [h0, mul_zero]
  · exact absurd (by simpa using hm2) hw

theorem expectedPos_shift (anchor block : ℚ) (d d0 : Int) :
    expectedPos anchor block d =
      expectedPos anchor block d0 - (((d : ℚ) - (d0 : ℚ)) / 2) * block := by
  unfold expectedPos
  push_cast
  ring

theorem estimateAxis_consistent (c : Consts) (env : Env Img) (anchor block : ℚ)
    (centre : MatchResult → Int) (ms : List MatchResult) (d0 : Int)
    (hlo : 2 ≤ d0) (hhi : d0 ≤ 2 * c.BOARD_MAX_EXTENT_ONE_SIDE + 1) (hms : ms ≠ [])
    (hall : ∀ m ∈ ms, m.Score ≠ 0 ∧ 0 < expectedPos anchor block d0 - (centre m : ℚ) ∧
      expectedPos anchor block d0 - (centre m : ℚ) ≤ block / 2) :
    estimateAxis c env anchor block centre ms = d0 := by
  obtain ⟨⟨r1, r2⟩, hbest⟩ := estimateAxis_spec c env anchor block centre ms hms (by omega)
  obtain ⟨m0, hm0⟩ := List.exists_mem_of_ne_nil ms hms
  have hblock : 0 < block := by
    obtain ⟨_, h1, h2⟩ := hall m0 hm0
    linarith
  have htotal : axisScore anchor block centre ms d0 =
      (ms.map (fun m => m.Score * m.Score)).sum := by
    rw [axisScore_eq_filter_sum, List.filter_eq_self.2]
    intro m hm
    obtain ⟨_, h1, h2⟩ := hall m hm
    simp only [decide_eq_true_eq]
    refine ⟨h1, ?_⟩
    unfold cropFactor
    linarith
  have hpos := sum_sq_pos ms hms (fun m hm => (hall m hm).1)
  have hle : ∀ d, axisScore anchor block centre ms d ≤ axisScore anchor block centre ms d0 := by
    intro d
    rw [htotal, axisScore_eq_filter_sum]
    exact sum_sq_filter_le _ ms
  have hgt : ∀ d, d0 < d → axisScore anchor block centre ms d = 0 := by
    intro d hd
    apply axisScore_eq_zero
    intro m hm
    right
    obtain ⟨_, h1, h2⟩ := hall m hm
    rintro ⟨h3, _⟩
    rw [expectedPos_shift anchor block d d0] at h3
    have hd1 : (1 : ℚ) ≤ (d : ℚ) - (d0 : ℚ) := by
      have : d0 + 1 ≤ d := hd
      have : ((d0 + 1 : Int) : ℚ) ≤ (d : ℚ) := by exact_mod_cast this
      push_cast at this
      linarith
    have : block / 2 ≤ ((d : ℚ) - (d0 : ℚ)) / 2 * block := by
      have := mul_le_mul_of_nonneg_right hd1 (le_of_lt hblock)
      linarith
    linarith
  obtain ⟨b1, b2⟩ := hbest d0 hlo hhi
  have heq : axisScore anchor block centre ms d0 =
      axisScore anchor block centre ms (estimateAxis c env anchor block centre ms) :=
    le_antisymm b1 (hle _)
  have hge := b2 heq
  by_contra hne
  have hlt : d0 < estimateAxis c env anchor block centre ms := by omega
  rw [hgt _ hlt, htotal] at heq
  linarith

/-- C11. For a dimension `d0` in `[2, 2*BOARD_MAX_EXTENT_ONE_SIDE+1]` and an axis whose match
list is non-empty, has no match of zero confidence and places every match consistently with
`d0` (`0 < expected(d0) - observed centre ≤ block/2`), `getPossibleBoardSize` returns `d0`
for that axis. -/
theorem getPossibleBoardSize_consistent_matches (c : Consts) (env : Env Img) (img : Option Img)
    (d0 : Int) (hlo : 2 ≤ d0) (hhi : d0 ≤ 2 * c.BOARD_MAX_EXTENT_ONE_SIDE + 1) :
    (xMatchesOf c env img ≠ [] →
      (∀ m ∈ xMatchesOf c env img, m.Score ≠ 0 ∧
        0 < expectedPos c.BOARD_CENTER_BLOCK_LT_Y c.BOARD_BLOCK_H d0 - (m.CenterY : ℚ) ∧
        expectedPos c.BOARD_CENTER_BLOCK_LT_Y c.BOARD_BLOCK_H d0 - (m.CenterY : ℚ) ≤
          c.BOARD_BLOCK_H / 2) →
      (getPossibleBoardSize c env img).2 = d0) ∧
    (yMatchesOf c env img ≠ [] →
      (∀ m ∈ yMatchesOf c env img, m.Score ≠ 0 ∧
        0 < expectedPos c.BOARD_CENTER_BLOCK_LT_X c.BOARD_BLOCK_W d0 - (m.CenterX : ℚ) ∧
        expectedPos c.BOARD_CENTER_BLOCK_LT_X c.BOARD_BLOCK_W d0 - (m.CenterX : ℚ) ≤
          c.BOARD_BLOCK_W / 2) →
      (getPossibleBoardSize c env img).1 = d0) :=
  ⟨fun hx hall => estimateAxis_consistent c env _ _ _ _ d0 hlo hhi hx hall,
    fun hy hall => estimateAxis_consistent c env _ _ _ _ d0 hlo hhi hy hall⟩

/-- Witness of C11: five consistent markers per axis of a five-by-five board give
`W = 5, H = 5`. -/
theorem getPossibleBoardSize_consistent_matches_witness :
    (xMatchesOf sampleConsts sampleEnvFive (some 13)).length = 5 ∧
      (yMatchesOf sampleConsts sampleEnvFive (some 13)).length = 5 ∧
      (getPossibleBoardSize sampleConsts sampleEnvFive (some 13)).1 = 5 ∧
      (getPossibleBoardSize sampleConsts sampleEnvFive (some 13)).2 = 5 :=
  ⟨by decide!, by decide!,
    (getPossibleBoardSize_consistent_matches sampleConsts sampleEnvFive (some 13) 5
      (by decide) (by decide)).2 (by decide!) (by decide!),
    (getPossibleBoardSize_consistent_matches sampleConsts sampleEnvFive (some 13) 5
      (by decide) (by decide)).1 (by decide!) (by decide!)⟩

/-! ## Properties of the orchestrator and of the preview sequence -/

/-- C12. For a non-nil input image on which `getAllPuzzleThumbLoc` yields no thumbnail
location, `Run` returns the result whose `Detail` is the empty record together with
`false`, and the trace is left as it was: no touch gesture, key press, capture or sub-task
is issued.  The returned value mentions no oracle of the environment, so neither the
geometry estimate nor the block classification takes part in it. -/
theorem Run_no_thumbnails (c : Consts) (env : Env Img) (arg : CustomRecognitionArg Img)
    (tr : List Event) (i : Img) (himg : arg.Img = some i)
    (hth : getAllPuzzleThumbLoc c env arg.Img = []) :
    Run c env arg tr =
      ((some { Box := arg.Roi, Detail := Detail.emptyRecord }, false), tr) := by
  unfold Run
  rw [himg] at hth ⊢
  simp only [getAllPuzzleDesc, hth, previewAll, List.length_nil, if_true]

/-- Witness of C12: the sample frame with variance 0 in every thumbnail cell, and with
variance 50 in every cell (rejected as a full grid). -/
theorem Run_no_thumbnails_witness :
    getAllPuzzleThumbLoc sampleConsts (sampleEnvWithVariance (fun _ => 0)) sampleArg.Img = [] ∧
      Run sampleConsts (sampleEnvWithVariance (fun _ => 0)) sampleArg [] =
        ((some { Box := sampleArg.Roi, Detail := Detail.emptyRecord }, false), []) ∧
      Run sampleConsts (sampleEnvWithVariance (fun _ => 50)) sampleArg [] =
        ((some { Box := sampleArg.Roi, Detail := Detail.emptyRecord }, false), []) :=
  ⟨by decide!,
    Run_no_thumbnails sampleConsts (sampleEnvWithVariance (fun _ => 0)) sampleArg [] 0 rfl
      (by decide!),
    Run_no_thumbnails sampleConsts (sampleEnvWithVariance (fun _ => 50)) sampleArg [] 0 rfl
      (by decide!)⟩

/-- C13 fails on the code. On the sample input two puzzles are extracted and the capture
refreshed by `doEnsureTab` cannot be obtained, yet `Run` goes on with the missing image:
the geometry estimate and every later stage run on it and `Run` reports success with a
board description instead of returning `(nil, false)`. -/
theorem Run_continues_without_refreshed_image :
    (getAllPuzzleDesc sampleConsts sampleEnvNoRefresh sampleArg.Img []).1.length = 2 ∧
      (doEnsureTab sampleConsts sampleEnvNoRefresh sampleArg.Img
        (getAllPuzzleDesc sampleConsts sampleEnvNoRefresh sampleArg.Img []).2).1 = none ∧
      getPossibleBoardSize sampleConsts sampleEnvNoRefresh none = (2, 2) ∧
      (Run sampleConsts sampleEnvNoRefresh sampleArg []).1 = (some sampleResult, true) := by
  decide!

/-- C14. Whether the screenshot is obtained or not, `doPreviewPuzzle` appends to the trace
exactly: touch-up, touch-down at the thumbnail centre, move to the preview anchor, screen
capture, touch-up (the last with delay 250 after a capture, 0 after a failed one); when the
capture fails it returns no shape, otherwise the shape decoded from the capture. -/
theorem doPreviewPuzzle_trace (c : Consts) (env : Env Img) (thumbX thumbY : Int)
    (tr : List Event) :
    (doPreviewPuzzle c env thumbX thumbY tr).2 =
        tr ++ [Event.touchUp 100,
          Event.touchDown 0 (thumbX + (toInt c.PUZZLE_THUMBNAIL_W).tdiv 2)
            (thumbY + (toInt c.PUZZLE_THUMBNAIL_H).tdiv 2) 100,
          Event.touchMove 0 (toInt c.PUZZLE_PREVIEW_MV_X) (toInt c.PUZZLE_PREVIEW_MV_Y) 500,
          Event.screencap,
          Event.touchUp
            (if (env.cacheImage (tr ++ [Event.touchUp 100,
              Event.touchDown 0 (thumbX + (toInt c.PUZZLE_THUMBNAIL_W).tdiv 2)
                (thumbY + (toInt c.PUZZLE_THUMBNAIL_H).tdiv 2) 100,
              Event.touchMove 0 (toInt c.PUZZLE_PREVIEW_MV_X) (toInt c.PUZZLE_PREVIEW_MV_Y) 500,
              Event.screencap])).isSome then 250 else 0)] ∧
      (env.cacheImage (tr ++ [Event.touchUp 100,
          Event.touchDown 0 (thumbX + (toInt c.PUZZLE_THUMBNAIL_W).tdiv 2)
            (thumbY + (toInt c.PUZZLE_THUMBNAIL_H).tdiv 2) 100,
          Event.touchMove 0 (toInt c.PUZZLE_PREVIEW_MV_X) (toInt c.PUZZLE_PREVIEW_MV_Y) 500,
          Event.screencap]) = none →
        (doPreviewPuzzle c env thumbX thumbY tr).1 = none) ∧
      (∀ previewImg, env.cacheImage (tr ++ [Event.touchUp 100,
          Event.touchDown 0 (thumbX + (toInt c.PUZZLE_THUMBNAIL_W).tdiv 2)
            (thumbY + (toInt c.PUZZLE_THUMBNAIL_H).tdiv 2) 100,
          Event.touchMove 0 (toInt c.PUZZLE_PREVIEW_MV_X) (toInt c.PUZZLE_PREVIEW_MV_Y) 500,
          Event.screencap]) = some previewImg →
        (doPreviewPuzzle c env thumbX thumbY tr).1 = getPuzzleDesc c env (some previewImg)) := by
  unfold doPreviewPuzzle
  simp only
  cases h : env.cacheImage (tr ++ [Event.touchUp 100,
      Event.touchDown 0 (thumbX + (toInt c.PUZZLE_THUMBNAIL_W).tdiv 2)
        (thumbY + (toInt c.PUZZLE_THUMBNAIL_H).tdiv 2) 100,
      Event.touchMove 0 (toInt c.PUZZLE_PREVIEW_MV_X) (toInt c.PUZZLE_PREVIEW_MV_Y) 500,
      Event.screencap]) with
  | none => simp
  | some img => simp

/-- Witness of C14: the preview of the thumbnail at (1000, 100) on the sample frame when the
capture fails: the touch is released and no shape is returned. -/
theorem doPreviewPuzzle_trace_witness :
    doPreviewPuzzle sampleConsts sampleEnvNoFirstPreview 1000 100
        [Event.runTask "WaitStable" [1000, 100, 200, 300]] =
      (none, [Event.runTask "WaitStable" [1000, 100, 200, 300], Event.touchUp 100,
        Event.touchDown 0 1050 150 100, Event.touchMove 0 400 400 500, Event.screencap,
        Event.touchUp 0]) ∧
    (doPreviewPuzzle sampleConsts sampleEnv 1000 100
        [Event.runTask "WaitStable" [1000, 100, 200, 300]]).2 =
      [Event.runTask "WaitStable" [1000, 100, 200, 300], Event.touchUp 100,
        Event.touchDown 0 1050 150 100, Event.touchMove 0 400 400 500, Event.screencap,
        Event.touchUp 250] :=
  ⟨by decide!,
    (doPreviewPuzzle_trace sampleConsts sampleEnv 1000 100
      [Event.runTask "WaitStable" [1000, 100, 200, 300]]).1⟩

/-! ## Properties of the shape decoder -/

theorem mem_extentOffsets (c : Consts) (o : Int) :
    o ∈ extentOffsets c ↔
      -c.PUZZLE_MAX_EXTENT_ONE_SIDE ≤ o ∧ o ≤ c.PUZZLE_MAX_EXTENT_ONE_SIDE := by
  simp only [extentOffsets, List.mem_map, List.mem_range]
  constructor
  · rintro ⟨i, hi, rfl⟩
    omega
  · intro h
    exact ⟨(o + c.PUZZLE_MAX_EXTENT_ONE_SIDE).toNat, by omega, by omega⟩

theorem extentOffsets_pairwise (c : Consts) : (extentOffsets c).Pairwise (fun a b => a < b) := by
  unfold extentOffsets
  rw [List.pairwise_map]
  exact (List.pairwise_lt_range _).imp (fun h => by omega)

theorem mem_puzzleOffsets (c : Consts) (o : Int × Int) :
    o ∈ puzzleOffsets c ↔
      (-c.PUZZLE_MAX_EXTENT_ONE_SIDE ≤ o.1 ∧ o.1 ≤ c.PUZZLE_MAX_EXTENT_ONE_SIDE) ∧
      (-c.PUZZLE_MAX_EXTENT_ONE_SIDE ≤ o.2 ∧ o.2 ≤ c.PUZZLE_MAX_EXTENT_ONE_SIDE) := by
  simp only [puzzleOffsets, List.mem_flatMap, List.mem_map, mem_extentOffsets]
  constructor
  · rintro ⟨y, hy, x, hx, rfl⟩
    exact ⟨hx, hy⟩
  · rintro ⟨hx, hy⟩
    exact ⟨o.2, hy, o.1, hx, rfl⟩

theorem puzzleOffsets_pairwise (c : Consts) :
    (puzzleOffsets c).Pairwise (fun a b => a.2 < b.2 ∨ (a.2 = b.2 ∧ a.1 < b.1)) := by
  unfold puzzleOffsets
  rw [List.pairwise_flatMap]
  refine ⟨?_, ?_⟩
  · intro y _
    rw [List.pairwise_map]
    exact (extentOffsets_pairwise c).imp (fun h => Or.inr ⟨rfl, h⟩)
  · refine (extentOffsets_pairwise c).imp ?_
    intro y1 y2 hlt a ha b hb
    simp only [List.mem_map] at ha hb
    obtain ⟨_, _, rfl⟩ := ha
    obtain ⟨_, _, rfl⟩ := hb
    exact Or.inl hlt

theorem foldl_puzzleStep (c : Consts) (env : Env Img) (img : Option Img) :
    ∀ (os : List (Int × Int)) (acc : List (Int × Int) × ℚ × Int),
      (os.foldl (puzzleStep c env img) acc).1 = acc.1 ++ os.filter (isBlock c env img) ∧
      (os.foldl (puzzleStep c env img) acc).2.2 =
        acc.2.2 + ((os.filter (isBlock c env img)).length : Int) := by
  intro os
  induction os with
  | nil => intro acc; simp
  | cons o os ih =>
    intro acc
    simp only [List.foldl_cons, List.filter_cons]
    obtain ⟨h1, h2⟩ := ih (puzzleStep c env img acc o)
    rw [h1, h2]
    unfold puzzleStep
    by_cases hb : isBlock c env img o = true
    · simp only [hb, if_true, List.append_assoc, List.singleton_append, List.length_cons]
      refine ⟨trivial, ?_⟩
      push_cast
      ring
    · simp only [hb, if_false, Bool.false_eq_true]
      exact ⟨trivial, trivial⟩

theorem getPuzzleDesc_eq (c : Consts) (env : Env Img) (img : Option Img) :
    (getPuzzleDesc c env img = none ↔ (puzzleOffsets c).filter (isBlock c env img) = []) ∧
      ∀ d, getPuzzleDesc c env img = some d →
        d.Blocks = (puzzleOffsets c).filter (isBlock c env img) := by
  obtain ⟨h1, h2⟩ := foldl_puzzleStep c env img (puzzleOffsets c) ([], 0, 0)
  simp only [List.nil_append, zero_add] at h1 h2
  unfold getPuzzleDesc
  simp only [h1, h2]
  constructor
  · constructor
    · intro h
      split at h
      · rename_i hz
        exact List.length_eq_zero.1 (by exact_mod_cast hz)
      · exact absurd h (by simp)
    · intro h
      rw [h]
      simp
  · intro d hd
    split at hd
    · exact absurd hd (by simp)
    · simp only [Option.some.injEq] at hd
      rw [← hd]

/-- C16. `getPuzzleDesc` returns no piece exactly when no relative offset with both
coordinates in `[-PUZZLE_MAX_EXTENT_ONE_SIDE, PUZZLE_MAX_EXTENT_ONE_SIDE]` qualifies as a
block; otherwise the `Blocks` of the returned piece are non-empty, contain exactly the
qualifying offsets of that range, hold no duplicate and are in row-major scan order
(`y` ascending, then `x` ascending). -/
theorem getPuzzleDesc_blocks (c : Consts) (env : Env Img) (img : Option Img) :
    (getPuzzleDesc c env img = none ↔
      ∀ o : Int × Int,
        (-c.PUZZLE_MAX_EXTENT_ONE_SIDE ≤ o.1 ∧ o.1 ≤ c.PUZZLE_MAX_EXTENT_ONE_SIDE) →
        (-c.PUZZLE_MAX_EXTENT_ONE_SIDE ≤ o.2 ∧ o.2 ≤ c.PUZZLE_MAX_EXTENT_ONE_SIDE) →
        isBlock c env img o = false) ∧
    (∀ d, getPuzzleDesc c env img = some d →
      d.Blocks ≠ [] ∧
      (∀ o : Int × Int, o ∈ d.Blocks ↔
        ((-c.PUZZLE_MAX_EXTENT_ONE_SIDE ≤ o.1 ∧ o.1 ≤ c.PUZZLE_MAX_EXTENT_ONE_SIDE) ∧
          (-c.PUZZLE_MAX_EXTENT_ONE_SIDE ≤ o.2 ∧ o.2 ≤ c.PUZZLE_MAX_EXTENT_ONE_SIDE)) ∧
        isBlock c env img o = true) ∧
      d.Blocks.Nodup ∧
      d.Blocks.Pairwise (fun a b => a.2 < b.2 ∨ (a.2 = b.2 ∧ a.1 < b.1))) := by
  obtain ⟨hnone, hsome⟩ := getPuzzleDesc_eq c env img
  refine ⟨?_, ?_⟩
  · rw [hnone, List.filter_eq_nil_iff]
    constructor
    · intro h o hx hy
      have := h o ((mem_puzzleOffsets c o).2 ⟨hx, hy⟩)
      simpa using this
    · intro h o ho
      obtain ⟨hx, hy⟩ := (mem_puzzleOffsets c o).1 ho
      rw [h o hx hy]
      simp
  · intro d hd
    have hb := hsome d hd
    have hpw : d.Blocks.Pairwise (fun a b => a.2 < b.2 ∨ (a.2 = b.2 ∧ a.1 < b.1)) := by
      rw [hb]
      exact (puzzleOffsets_pairwise c).filter _
    refine ⟨?_, ?_, ?_, hpw⟩
    · intro hnil
      rw [hb] at hnil
      rw [hnone.2 hnil] at hd
      exact absurd hd (by simp)
    · intro o
      rw [hb, List.mem_filter, mem_puzzleOffsets]
    · exact hpw.imp (fun {a b} h hab => by
        rw [hab] at h
        omega)

/-- Witness of C16: the piece decoded from the first preview capture of the sample run,
whose blocks are the offsets (0, 0) and (1, 0). -/
theorem getPuzzleDesc_blocks_witness :
    getPuzzleDesc sampleConsts sampleEnv (some 5) =
        some { Blocks := [(0, 0), (1, 0)], Hue := 75 } ∧
      ([((0 : Int), (0 : Int)), (1, 0)] ≠ [] ∧
        (∀ o : Int × Int, o ∈ [((0 : Int), (0 : Int)), (1, 0)] ↔
          ((-sampleConsts.PUZZLE_MAX_EXTENT_ONE_SIDE ≤ o.1 ∧
              o.1 ≤ sampleConsts.PUZZLE_MAX_EXTENT_ONE_SIDE) ∧
            (-sampleConsts.PUZZLE_MAX_EXTENT_ONE_SIDE ≤ o.2 ∧
              o.2 ≤ sampleConsts.PUZZLE_MAX_EXTENT_ONE_SIDE)) ∧
          isBlock sampleConsts sampleEnv (some 5) o = true) ∧
        [((0 : Int), (0 : Int)), (1, 0)].Nodup ∧
        [((0 : Int), (0 : Int)), (1, 0)].Pairwise
          (fun a b => a.2 < b.2 ∨ (a.2 = b.2 ∧ a.1 < b.1))) :=
  ⟨by decide!,
    (getPuzzleDesc_blocks sampleConsts sampleEnv (some 5)).2
      { Blocks := [(0, 0), (1, 0)], Hue := 75 } (by decide!)⟩

theorem previewAll_eq (c : Consts) (env : Env Img) :
    ∀ (thumbs : List (Int × Int)) (puzzleList : List PuzzleDesc) (tr : List Event),
      stabilizationsSucceed c env thumbs tr = true →
      (previewAll c env thumbs puzzleList tr).1 =
        puzzleList ++ (previewEach c env thumbs tr).reduceOption := by
  intro thumbs
  induction thumbs with
  | nil => intro puzzleList tr _; simp [previewAll, previewEach]
  | cons thumb thumbs ih =>
    intro puzzleList tr hst
    simp only [stabilizationsSucceed, Bool.and_eq_true] at hst
    simp only [previewAll, previewEach]
    rw [if_pos hst.1]
    cases hr : (doPreviewPuzzle c env thumb.1 thumb.2
        (tr ++ [Event.runTask "WaitStable" (waitStableTarget c)])).1 with
    | none =>
      simp only [List.reduceOption_cons_of_none]
      exact ih _ _ hst.2
    | some desc =>
      simp only [List.reduceOption_cons_of_some]
      rw [ih _ _ hst.2, List.append_assoc, List.singleton_append]

theorem previewEach_length (c : Consts) (env : Env Img) :
    ∀ (thumbs : List (Int × Int)) (tr : List Event),
      (previewEach c env thumbs tr).length = thumbs.length := by
  intro thumbs
  induction thumbs with
  | nil => intro tr; rfl
  | cons thumb thumbs ih =>
    intro tr
    simp only [previewEach, List.length_cons, ih]

/-- C17. When the stabilisation sub-task succeeds for each thumbnail, `getAllPuzzleDesc`
returns exactly the non-nil results of `doPreviewPuzzle` in thumbnail order, one preview
being made for every thumbnail: a preview that yields no shape drops that piece only and
the later thumbnails are still previewed and included. -/
theorem getAllPuzzleDesc_drops_only_failed (c : Consts) (env : Env Img) (img : Option Img)
    (tr : List Event)
    (hst : stabilizationsSucceed c env (getAllPuzzleThumbLoc c env img) tr = true) :
    (getAllPuzzleDesc c env img tr).1 =
        (previewEach c env (getAllPuzzleThumbLoc c env img) tr).reduceOption ∧
      (previewEach c env (getAllPuzzleThumbLoc c env img) tr).length =
        (getAllPuzzleThumbLoc c env img).length := by
  refine ⟨?_, previewEach_length c env _ tr⟩
  unfold getAllPuzzleDesc
  rw [previewAll_eq c env _ [] tr hst, List.nil_append]

/-- Witness of C17: on the sample frame the preview of the first thumbnail fails to capture
and the second succeeds; the piece of the second thumbnail is returned. -/
theorem getAllPuzzleDesc_drops_only_failed_witness :
    previewEach sampleConsts sampleEnvNoFirstPreview
        (getAllPuzzleThumbLoc sampleConsts sampleEnvNoFirstPreview (some 0)) [] =
      [none, some { Blocks := [(0, 0), (1, 0)], Hue := 200 }] ∧
    (getAllPuzzleDesc sampleConsts sampleEnvNoFirstPreview (some 0) []).1 =
      [{ Blocks := [(0, 0), (1, 0)], Hue := 200 }] :=
  ⟨by decide!,
    ((getAllPuzzleDesc_drops_only_failed sampleConsts sampleEnvNoFirstPreview (some 0) []
      (by decide!)).1).trans (by decide!)⟩

/-! ## The accepted thumbnails are a prefix of the grid -/

theorem scanThumbs_gap_iff (c : Consts) (env : Env Img) (img : Option Img) :
    ∀ (cells : List (Nat × Nat)) (results r : List (Int × Int)),
      scanThumbs c env img cells results true = some r ↔
        (∀ cell ∈ cells, ¬ thumbVariance c env img cell > c.PUZZLE_THUMBNAIL_COLOR_VAR_GRT) ∧
          r = results := by
  intro cells
  induction cells with
  | nil =>
    intro results r
    simp only [scanThumbs, Option.some.injEq, List.not_mem_nil, false_implies, implies_true,
      true_and]
    exact eq_comm
  | cons cell cells ih =>
    intro results r
    simp only [scanThumbs, List.mem_cons, forall_eq_or_imp]
    by_cases h : thumbVariance c env img cell > c.PUZZLE_THUMBNAIL_COLOR_VAR_GRT
    · rw [if_pos h]
      constructor
      · intro h1
        split at h1
        · exact absurd h1 (by simp)
        · simp at h1
      · rintro ⟨⟨h1, _⟩, _⟩; exact absurd h h1
    · rw [if_neg h, ih]
      constructor
      · rintro ⟨h1, h2⟩; exact ⟨⟨h, h1⟩, h2⟩
      · rintro ⟨⟨_, h1⟩, h2⟩; exact ⟨h1, h2⟩

theorem scanThumbs_prefix_iff (c : Consts) (env : Env Img) (img : Option Img) :
    ∀ (cells : List (Nat × Nat)) (results r : List (Int × Int)),
      scanThumbs c env img cells results false = some r ↔
        ∃ k, k ≤ cells.length ∧
          (∀ cell ∈ cells.take k,
            thumbVariance c env img cell > c.PUZZLE_THUMBNAIL_COLOR_VAR_GRT ∧
            ¬ thumbVariance c env img cell > c.PUZZLE_THUMBNAIL_COLOR_VAR_LES) ∧
          (∀ cell ∈ cells.drop k,
            ¬ thumbVariance c env img cell > c.PUZZLE_THUMBNAIL_COLOR_VAR_GRT) ∧
          r = results ++ (cells.take k).map (thumbLoc c) := by
  intro cells
  induction cells with
  | nil =>
    intro results r
    simp only [scanThumbs, Option.some.injEq, List.length_nil, Nat.le_zero_eq, List.take_nil,
      List.not_mem_nil, false_implies, implies_true, List.drop_nil, List.map_nil,
      List.append_nil, true_and, exists_eq_left]
    exact eq_comm
  | cons cell cells ih =>
    intro results r
    simp only [scanThumbs]
    by_cases h : thumbVariance c env img cell > c.PUZZLE_THUMBNAIL_COLOR_VAR_GRT
    · rw [if_pos h]
      by_cases h2 : thumbVariance c env img cell > c.PUZZLE_THUMBNAIL_COLOR_VAR_LES
      · rw [if_pos h2]
        constructor
        · intro h1; exact absurd h1 (by simp)
        · rintro ⟨k, _, ht, hd, _⟩
          cases k with
          | zero => exact absurd h (hd cell (by simp))
          | succ k => exact absurd h2 (ht cell (by simp)).2
      · rw [if_neg h2, if_neg (by simp), ih]
        constructor
        · rintro ⟨k, hk, ht, hd, hr⟩
          refine ⟨k + 1, by simp only [List.length_cons]; omega, ?_, ?_, ?_⟩
          · intro x hx
            simp only [List.take_succ_cons, List.mem_cons] at hx
            rcases hx with rfl | hx
            · exact ⟨h, h2⟩
            · exact ht x hx
          · simpa using hd
          · rw [hr]
            simp
        · rintro ⟨k, hk, ht, hd, hr⟩
          cases k with
          | zero => exact absurd h (hd cell (by simp))
          | succ k =>
            refine ⟨k, by simp only [List.length_cons] at hk; omega, ?_, ?_, ?_⟩
            · intro x hx
              exact ht x (by simp [hx])
            · simpa using hd
            · rw [hr]
              simp
    · rw [if_neg h, scanThumbs_gap_iff]
      constructor
      · rintro ⟨h1, h2⟩
        refine ⟨0, Nat.zero_le _, by simp, ?_, by simp [h2]⟩
        intro x hx
        simp only [List.drop_zero, List.mem_cons] at hx
        rcases hx with rfl | hx
        · exact h
        · exact h1 x hx
      · rintro ⟨k, _, ht, hd, hr⟩
        cases k with
        | zero =>
          refine ⟨fun x hx => hd x (by simp [hx]), by simp [hr]⟩
        | succ k => exact absurd (ht cell (by simp)).1 h

theorem thumbGrid_eq_range (R C : Nat) :
    (List.range R).flatMap (fun (r : Nat) => (List.range C).map (fun (col : Nat) => (r, col))) =
      (List.range (R * C)).map (fun j => (j / C, j % C)) := by
  induction R with
  | zero => simp
  | succ R ih =>
    rw [List.range_succ, List.flatMap_append, ih, Nat.succ_mul, List.range_add, List.map_append]
    congr 1
    simp only [List.flatMap_cons, List.flatMap_nil, List.append_nil, List.map_map]
    apply List.map_congr_left
    intro i hi
    have hiC : i < C := List.mem_range.1 hi
    have hC : 0 < C := by omega
    simp only [Function.comp_apply, Prod.mk.injEq]
    constructor
    · rw [Nat.add_comm, Nat.add_mul_div_right _ _ hC, Nat.div_eq_of_lt hiC, Nat.zero_add]
    · rw [Nat.add_comm, Nat.add_mul_mod_self_right, Nat.mod_eq_of_lt hiC]

theorem thumbCells_eq_range (c : Consts) :
    thumbCells c =
      (List.range (c.PUZZLE_THUMBNAIL_MAX_ROWS.toNat * c.PUZZLE_THUMBNAIL_MAX_COLS.toNat)).map
        (fun j => (j / c.PUZZLE_THUMBNAIL_MAX_COLS.toNat, j % c.PUZZLE_THUMBNAIL_MAX_COLS.toNat)) :=
  thumbGrid_eq_range _ _

theorem take_map_range {α : Type} (f : Nat → α) (n k : Nat) (hk : k ≤ n) :
    ((List.range n).map f).take k = (List.range k).map f := by
  rw [← List.map_take, List.take_range, Nat.min_eq_left hk]

theorem mem_drop_map_range {α : Type} (f : Nat → α) (n k : Nat) (hk : k ≤ n) (x : α) :
    x ∈ ((List.range n).map f).drop k ↔ ∃ j, k ≤ j ∧ j < n ∧ f j = x := by
  have hn : n = k + (n - k) := by omega
  have hsplit : (List.range n).map f =
      (List.range k).map f ++ ((List.range (n - k)).map (fun i => k + i)).map f := by
    rw [← List.map_append, ← List.range_add, ← hn]
  rw [hsplit, List.drop_left' (by simp)]
  simp only [List.mem_map, List.mem_range]
  constructor
  · rintro ⟨j, ⟨i, hi, rfl⟩, rfl⟩
    exact ⟨k + i, by omega, by omega, rfl⟩
  · rintro ⟨j, h1, h2, rfl⟩
    exact ⟨j, ⟨j - k, by omega, by omega⟩, rfl⟩

theorem scanThumbs_index_iff (c : Consts) (env : Env Img) (img : Option Img)
    (r : List (Int × Int)) :
    scanThumbs c env img (thumbCells c) [] false = some r ↔
      ∃ k, k ≤ c.PUZZLE_THUMBNAIL_MAX_ROWS.toNat * c.PUZZLE_THUMBNAIL_MAX_COLS.toNat ∧
        (∀ j, j < c.PUZZLE_THUMBNAIL_MAX_ROWS.toNat * c.PUZZLE_THUMBNAIL_MAX_COLS.toNat →
          (thumbVariance c env img (j / c.PUZZLE_THUMBNAIL_MAX_COLS.toNat,
              j % c.PUZZLE_THUMBNAIL_MAX_COLS.toNat) > c.PUZZLE_THUMBNAIL_COLOR_VAR_GRT ↔
            j < k)) ∧
        (∀ j, j < k →
          thumbVariance c env img (j / c.PUZZLE_THUMBNAIL_MAX_COLS.toNat,
              j % c.PUZZLE_THUMBNAIL_MAX_COLS.toNat) ≤ c.PUZZLE_THUMBNAIL_COLOR_VAR_LES) ∧
        r = (List.range k).map (fun j => thumbLoc c
          (j / c.PUZZLE_THUMBNAIL_MAX_COLS.toNat, j % c.PUZZLE_THUMBNAIL_MAX_COLS.toNat)) := by
  rw [scanThumbs_prefix_iff, thumbCells_eq_range]
  simp only [List.length_map, List.length_range, List.nil_append]
  constructor
  · rintro ⟨k, hk, ht, hd, hr⟩
    rw [take_map_range _ _ _ hk] at ht hr
    refine ⟨k, hk, ?_, ?_, ?_⟩
    · intro j hj
      constructor
      · intro hv
        by_contra hge
        exact hd _ ((mem_drop_map_range _ _ _ hk _).2 ⟨j, by omega, hj, rfl⟩) hv
      · intro hlt
        exact (ht _ (List.mem_map.2 ⟨j, List.mem_range.2 hlt, rfl⟩)).1
    · intro j hlt
      exact not_lt.1 (ht _ (List.mem_map.2 ⟨j, List.mem_range.2 hlt, rfl⟩)).2
    · rw [hr, List.map_map]
      rfl
  · rintro ⟨k, hk, hc, hl, hr⟩
    refine ⟨k, hk, ?_, ?_, ?_⟩
    · rw [take_map_range _ _ _ hk]
      intro x hx
      obtain ⟨j, hj, rfl⟩ := List.mem_map.1 hx
      have hjk := List.mem_range.1 hj
      exact ⟨(hc j (by omega)).2 hjk, not_lt.2 (hl j hjk)⟩
    · intro x hx
      obtain ⟨j, h1, h2, rfl⟩ := (mem_drop_map_range _ _ _ hk _).1 hx
      intro hv
      have := (hc j h2).1 hv
      omega
    · rw [take_map_range _ _ _ hk, hr, List.map_map]
      rfl

/-- C18. On a grid with at least one row and one column, the list `getAllPuzzleThumbLoc`
returns is the pixel positions of the first `k` cells of the grid in row-major order for
some `0 ≤ k < ROWS*COLS`; it is non-empty exactly when, for some `1 ≤ k < ROWS*COLS`, the
cells with variance above the lower threshold are precisely the first `k` cells and none
of these exceeds the upper threshold, and it is then the positions of those `k` cells.
Cell number `j` in row-major order is the cell `(j / COLS, j % COLS)`. -/
theorem getAllPuzzleThumbLoc_leading_cells (c : Consts) (env : Env Img) (img : Option Img)
    (hR : 0 < c.PUZZLE_THUMBNAIL_MAX_ROWS) (hC : 0 < c.PUZZLE_THUMBNAIL_MAX_COLS) :
    (∃ k : Nat, (k : Int) < c.PUZZLE_THUMBNAIL_MAX_ROWS * c.PUZZLE_THUMBNAIL_MAX_COLS ∧
      getAllPuzzleThumbLoc c env img =
        (List.range k).map (fun j => thumbLoc c
          (j / c.PUZZLE_THUMBNAIL_MAX_COLS.toNat, j % c.PUZZLE_THUMBNAIL_MAX_COLS.toNat))) ∧
    (getAllPuzzleThumbLoc c env img ≠ [] ↔
      ∃ k : Nat, 1 ≤ k ∧
        (k : Int) < c.PUZZLE_THUMBNAIL_MAX_ROWS * c.PUZZLE_THUMBNAIL_MAX_COLS ∧
        (∀ j : Nat, (j : Int) < c.PUZZLE_THUMBNAIL_MAX_ROWS * c.PUZZLE_THUMBNAIL_MAX_COLS →
          (thumbVariance c env img (j / c.PUZZLE_THUMBNAIL_MAX_COLS.toNat,
              j % c.PUZZLE_THUMBNAIL_MAX_COLS.toNat) > c.PUZZLE_THUMBNAIL_COLOR_VAR_GRT ↔
            j < k)) ∧
        (∀ j : Nat, j < k →
          thumbVariance c env img (j / c.PUZZLE_THUMBNAIL_MAX_COLS.toNat,
              j % c.PUZZLE_THUMBNAIL_MAX_COLS.toNat) ≤ c.PUZZLE_THUMBNAIL_COLOR_VAR_LES)) ∧
    (∀ k : Nat, 1 ≤ k →
      (k : Int) < c.PUZZLE_THUMBNAIL_MAX_ROWS * c.PUZZLE_THUMBNAIL_MAX_COLS →
      (∀ j : Nat, (j : Int) < c.PUZZLE_THUMBNAIL_MAX_ROWS * c.PUZZLE_THUMBNAIL_MAX_COLS →
        (thumbVariance c env img (j / c.PUZZLE_THUMBNAIL_MAX_COLS.toNat,
            j % c.PUZZLE_THUMBNAIL_MAX_COLS.toNat) > c.PUZZLE_THUMBNAIL_COLOR_VAR_GRT ↔
          j < k)) →
      (∀ j : Nat, j < k →
        thumbVariance c env img (j / c.PUZZLE_THUMBNAIL_MAX_COLS.toNat,
            j % c.PUZZLE_THUMBNAIL_MAX_COLS.toNat) ≤ c.PUZZLE_THUMBNAIL_COLOR_VAR_LES) →
      getAllPuzzleThumbLoc c env img =
        (List.range k).map (fun j => thumbLoc c
          (j / c.PUZZLE_THUMBNAIL_MAX_COLS.toNat, j % c.PUZZLE_THUMBNAIL_MAX_COLS.toNat))) := by
  have hn : ((c.PUZZLE_THUMBNAIL_MAX_ROWS.toNat * c.PUZZLE_THUMBNAIL_MAX_COLS.toNat : Nat) : Int) =
      c.PUZZLE_THUMBNAIL_MAX_ROWS * c.PUZZLE_THUMBNAIL_MAX_COLS := by
    push_cast
    rw [Int.toNat_of_nonneg (le_of_lt hR), Int.toNat_of_nonneg (le_of_lt hC)]
  have hpos : 0 < c.PUZZLE_THUMBNAIL_MAX_ROWS * c.PUZZLE_THUMBNAIL_MAX_COLS := mul_pos hR hC
  have hA : ∀ k : Nat, 1 ≤ k →
      (k : Int) < c.PUZZLE_THUMBNAIL_MAX_ROWS * c.PUZZLE_THUMBNAIL_MAX_COLS →
      (∀ j : Nat, (j : Int) < c.PUZZLE_THUMBNAIL_MAX_ROWS * c.PUZZLE_THUMBNAIL_MAX_COLS →
        (thumbVariance c env img (j / c.PUZZLE_THUMBNAIL_MAX_COLS.toNat,
            j % c.PUZZLE_THUMBNAIL_MAX_COLS.toNat) > c.PUZZLE_THUMBNAIL_COLOR_VAR_GRT ↔
          j < k)) →
      (∀ j : Nat, j < k →
        thumbVariance c env img (j / c.PUZZLE_THUMBNAIL_MAX_COLS.toNat,
            j % c.PUZZLE_THUMBNAIL_MAX_COLS.toNat) ≤ c.PUZZLE_THUMBNAIL_COLOR_VAR_LES) →
      getAllPuzzleThumbLoc c env img =
        (List.range k).map (fun j => thumbLoc c
          (j / c.PUZZLE_THUMBNAIL_MAX_COLS.toNat, j % c.PUZZLE_THUMBNAIL_MAX_COLS.toNat)) := by
    intro k _ hk hc hl
    have hs := (scanThumbs_index_iff c env img _).2
      ⟨k, by omega, fun j hj => hc j (by omega), hl, rfl⟩
    unfold getAllPuzzleThumbLoc
    rw [hs]
    simp only [List.length_map, List.length_range]
    rw [if_neg (by omega)]
  refine ⟨?_, ⟨?_, ?_⟩, hA⟩
  · unfold getAllPuzzleThumbLoc
    cases hs : scanThumbs c env img (thumbCells c) [] false with
    | none => exact ⟨0, by simpa using hpos, by simp⟩
    | some r =>
      simp only
      split
      · exact ⟨0, by simpa using hpos, by simp⟩
      · rename_i hlen
        obtain ⟨k, _, _, _, hr⟩ := (scanThumbs_index_iff c env img r).1 hs
        refine ⟨k, ?_, hr⟩
        rw [hr] at hlen
        simp only [List.length_map, List.length_range] at hlen
        omega
  · intro hne
    unfold getAllPuzzleThumbLoc at hne
    cases hs : scanThumbs c env img (thumbCells c) [] false with
    | none =>
      rw [hs] at hne
      exact absurd rfl hne
    | some r =>
      rw [hs] at hne
      simp only at hne
      split at hne
      · exact absurd rfl hne
      · rename_i hlen
        obtain ⟨k, hk, hc, hl, hr⟩ := (scanThumbs_index_iff c env img r).1 hs
        rw [hr] at hlen hne
        simp only [List.length_map, List.length_range] at hlen
        refine ⟨k, ?_, by omega, fun j hj => hc j (by omega), hl⟩
        cases k with
        | zero => exact absurd rfl hne
        | succ k => omega
  · rintro ⟨k, hk1, hk, hc, hl⟩
    rw [hA k hk1 hk hc hl]
    cases k with
    | zero => omega
    | succ k => simp [List.range_succ]

/-- Witness of C18: on the sample grid of two rows and two columns the first two cells are
the candidates; their positions are returned. -/
theorem getAllPuzzleThumbLoc_leading_cells_witness :
    getAllPuzzleThumbLoc sampleConsts sampleEnv (some 0) = [(1000, 100), (1100, 100)] ∧
      ∃ k : Nat, 1 ≤ k ∧
        (k : Int) < sampleConsts.PUZZLE_THUMBNAIL_MAX_ROWS *
          sampleConsts.PUZZLE_THUMBNAIL_MAX_COLS ∧
        (∀ j : Nat, (j : Int) < sampleConsts.PUZZLE_THUMBNAIL_MAX_ROWS *
            sampleConsts.PUZZLE_THUMBNAIL_MAX_COLS →
          (thumbVariance sampleConsts sampleEnv (some 0)
              (j / sampleConsts.PUZZLE_THUMBNAIL_MAX_COLS.toNat,
                j % sampleConsts.PUZZLE_THUMBNAIL_MAX_COLS.toNat) >
              sampleConsts.PUZZLE_THUMBNAIL_COLOR_VAR_GRT ↔
            j < k)) ∧
        (∀ j : Nat, j < k →
          thumbVariance sampleConsts sampleEnv (some 0)
              (j / sampleConsts.PUZZLE_THUMBNAIL_MAX_COLS.toNat,
                j % sampleConsts.PUZZLE_THUMBNAIL_MAX_COLS.toNat) ≤
            sampleConsts.PUZZLE_THUMBNAIL_COLOR_VAR_LES) :=
  ⟨by decide!,
    (getAllPuzzleThumbLoc_leading_cells sampleConsts sampleEnv (some 0) (by decide)
      (by decide)).2.1.1 (by decide!)⟩

/-! ## Which partition a locked block goes to -/

theorem firstCloseHue_cons (c : Consts) (env : Env Img) (hue : Int) (hues : List Int)
    (b : LockedBlockDesc) :
    firstCloseHue c env (hue :: hues) b =
      if env.diffHue b.Hue hue ≤ c.PUZZLE_CLUSTER_DIFF_GRT then some 0
      else (firstCloseHue c env hues b).map (fun i => i + 1) := by
  unfold firstCloseHue
  rw [List.findIdx?_cons, Nat.zero_add, List.findIdx?_succ]
  by_cases h : env.diffHue b.Hue hue ≤ c.PUZZLE_CLUSTER_DIFF_GRT
  · simp [h]
  · simp [h]

theorem takeLockedForHue_eq (c : Consts) (env : Env Img) (hue : Int) :
    ∀ locked : List (Option LockedBlockDesc),
      (takeLockedForHue c env hue locked).1 =
          locked.reduceOption.filter
            (fun b => decide (env.diffHue b.Hue hue ≤ c.PUZZLE_CLUSTER_DIFF_GRT)) ∧
        (takeLockedForHue c env hue locked).2.reduceOption =
          locked.reduceOption.filter
            (fun b => !decide (env.diffHue b.Hue hue ≤ c.PUZZLE_CLUSTER_DIFF_GRT)) := by
  intro locked
  induction locked with
  | nil => simp [takeLockedForHue]
  | cons lb locked ih =>
    cases lb with
    | none =>
      simp only [takeLockedForHue, List.reduceOption_cons_of_none]
      exact ih
    | some b =>
      simp only [takeLockedForHue, List.reduceOption_cons_of_some, List.filter_cons]
      by_cases h : env.diffHue b.Hue hue ≤ c.PUZZLE_CLUSTER_DIFF_GRT
      · simp only [h, if_true, decide_True, Bool.not_true, List.reduceOption_cons_of_none,
          Bool.false_eq_true, if_false]
        exact ⟨by rw [ih.1], ih.2⟩
      · simp only [h, if_false, decide_False, Bool.not_false, List.reduceOption_cons_of_some,
          Bool.false_eq_true, if_true]
        exact ⟨ih.1, by rw [ih.2]⟩

theorem perHueLoop_first_close (c : Consts) (env : Env Img) (img : Option Img) (bs : Int × Int) :
    ∀ (hues : List Int) (st st1 : PerHue), perHueLoop c env img bs hues st = some st1 →
      st1.lockedBlockList = st.lockedBlockList ++
          (List.range hues.length).map (fun i =>
            st.locked.reduceOption.filter
              (fun b => decide (firstCloseHue c env hues b = some i))) ∧
        st1.locked.reduceOption =
          st.locked.reduceOption.filter
            (fun b => decide (firstCloseHue c env hues b = none)) := by
  intro hues
  induction hues with
  | nil =>
    intro st st1 h
    simp only [perHueLoop, Option.some.injEq] at h
    subst h
    simp [firstCloseHue]
  | cons hue hues ih =>
    intro st st1 h
    simp only [perHueLoop] at h
    split at h
    · exact absurd h (by simp)
    · obtain ⟨h1, h2⟩ := ih _ _ h
      obtain ⟨t1, t2⟩ := takeLockedForHue_eq c env hue st.locked
      simp only at h1 h2
      rw [t2] at h1 h2
      rw [t1] at h1
      refine ⟨?_, ?_⟩
      · rw [h1, List.length_cons, List.range_succ_eq_map, List.map_cons, List.map_map,
          List.append_assoc, List.singleton_append]
        congr 2
        · apply List.filter_congr
          intro b _
          rw [firstCloseHue_cons]
          by_cases hb : env.diffHue b.Hue hue ≤ c.PUZZLE_CLUSTER_DIFF_GRT
          · simp [hb]
          · simp [hb]
        · apply List.map_congr_left
          intro i _
          simp only [Function.comp_apply, List.filter_filter]
          apply List.filter_congr
          intro b _
          rw [firstCloseHue_cons]
          by_cases hb : env.diffHue b.Hue hue ≤ c.PUZZLE_CLUSTER_DIFF_GRT
          · simp [hb]
          · simp [hb]
      · rw [h2, List.filter_filter]
        apply List.filter_congr
        intro b _
        rw [firstCloseHue_cons]
        by_cases hb : env.diffHue b.Hue hue ≤ c.PUZZLE_CLUSTER_DIFF_GRT
        · simp [hb]
        · simp [hb]

theorem firstCloseHue_eq_some_iff (c : Consts) (env : Env Img) (hues : List Int)
    (b : LockedBlockDesc) (i : Nat) :
    firstCloseHue c env hues b = some i ↔
      ∃ hue, hues[i]? = some hue ∧ env.diffHue b.Hue hue ≤ c.PUZZLE_CLUSTER_DIFF_GRT ∧
        ∀ j, j < i → ∀ earlier, hues[j]? = some earlier →
          ¬ env.diffHue b.Hue earlier ≤ c.PUZZLE_CLUSTER_DIFF_GRT := by
  unfold firstCloseHue
  rw [List.findIdx?_eq_some_iff_getElem]
  constructor
  · rintro ⟨h, h1, h2⟩
    refine ⟨hues[i], List.getElem?_eq_getElem h, by simpa using h1, ?_⟩
    intro j hj earlier he
    have hjl : j < hues.length := Nat.lt_trans hj h
    rw [List.getElem?_eq_getElem hjl, Option.some.injEq] at he
    rw [← he]
    simpa using h2 j hj
  · rintro ⟨hue, h1, h2, h3⟩
    obtain ⟨h, he⟩ := List.getElem?_eq_some.1 h1
    refine ⟨h, by rw [he]; simpa using h2, ?_⟩
    intro j hj
    have hjl : j < hues.length := Nat.lt_trans hj h
    simpa using h3 j hj _ (List.getElem?_eq_getElem hjl)

/-- C19. The per-hue loop of `Run` places a locked block in the partition of the first hue
of the hue list, in list order, whose distance `diffHue` to the block's hue is at most
`PUZZLE_CLUSTER_DIFF_GRT`: partition `i` is the pool restricted, in the pool's order, to the
blocks whose first such hue is at position `i`.  A block farther than the tolerance from
every hue is in no partition and stays in the pool. -/
theorem perHueLoop_first_close_hue (c : Consts) (env : Env Img) (img : Option Img) (W H : Int)
    (hues : List Int) (pool : List LockedBlockDesc) (hW : 0 ≤ W) (hH : 0 ≤ H) :
    ∃ st, perHueLoop c env img (W, H) hues (perHueInit pool) = some st ∧
      st.lockedBlockList =
        (List.range hues.length).map (fun i =>
          pool.filter (fun b => decide (firstCloseHue c env hues b = some i))) ∧
      st.locked.reduceOption =
        pool.filter (fun b => decide (firstCloseHue c env hues b = none)) ∧
      (∀ b i, firstCloseHue c env hues b = some i ↔
        ∃ hue, hues[i]? = some hue ∧ env.diffHue b.Hue hue ≤ c.PUZZLE_CLUSTER_DIFF_GRT ∧
          ∀ j, j < i → ∀ earlier, hues[j]? = some earlier →
            ¬ env.diffHue b.Hue earlier ≤ c.PUZZLE_CLUSTER_DIFF_GRT) ∧
      (∀ b, (∀ hue ∈ hues, ¬ env.diffHue b.Hue hue ≤ c.PUZZLE_CLUSTER_DIFF_GRT) →
        ∀ part ∈ st.lockedBlockList, b ∉ part) := by
  obtain ⟨st, hst⟩ := perHueLoop_isSome c env img W H hW hH hues (perHueInit pool)
  obtain ⟨h1, h2⟩ := perHueLoop_first_close c env img (W, H) hues _ _ hst
  simp only [perHueInit, List.nil_append, reduceOption_map_some] at h1 h2
  refine ⟨st, hst, h1, h2, firstCloseHue_eq_some_iff c env hues, ?_⟩
  intro b hfar part hpart hb
  rw [h1] at hpart
  obtain ⟨i, _, rfl⟩ := List.mem_map.1 hpart
  have hi := (List.mem_filter.1 hb).2
  simp only [decide_eq_true_eq] at hi
  have hnone : firstCloseHue c env hues b = none := by
    unfold firstCloseHue
    rw [List.findIdx?_eq_none_iff]
    intro hue hh
    simpa using hfar hue hh
  rw [hnone] at hi
  exact absurd hi (by simp)

/-- Witness of C19: the sample pool and the hues 75, 79, 200, 30: the block of hue 80 is
close to both 75 and 79 and goes to 75, the first; no block is close to 30. -/
theorem perHueLoop_first_close_hue_witness :
    (perHueLoop sampleConsts sampleEnv (some 13) (2, 2) [75, 79, 200, 30]
        (perHueInit samplePool)).map (fun st => st.lockedBlockList) =
      some [[{ Loc := (0, 0), RawLoc := (570, 270), Hue := 77 },
             { Loc := (1, 1), RawLoc := (630, 330), Hue := 80 }],
            [],
            [{ Loc := (0, 1), RawLoc := (570, 330), Hue := 205 }],
            []] ∧
    ∃ st, perHueLoop sampleConsts sampleEnv (some 13) (2, 2) [75, 79, 200, 30]
        (perHueInit samplePool) = some st ∧
      st.lockedBlockList =
        (List.range [(75 : Int), 79, 200, 30].length).map (fun i =>
          samplePool.filter (fun b =>
            decide (firstCloseHue sampleConsts sampleEnv [75, 79, 200, 30] b = some i))) :=
  ⟨by decide!,
    (perHueLoop_first_close_hue sampleConsts sampleEnv (some 13) 2 2 [75, 79, 200, 30]
      samplePool (by decide) (by decide)).imp (fun _ h => ⟨h.1, h.2.1⟩)⟩

/-! ## Matches that vote for no dimension -/

theorem estimateAxis_all_zero (c : Consts) (env : Env Img) (anchor block : ℚ)
    (centre : MatchResult → Int) (ms : List MatchResult) (hms : ms ≠ [])
    (hmax : 1 ≤ c.BOARD_MAX_EXTENT_ONE_SIDE)
    (hzero : ∀ d, 2 ≤ d → d ≤ 2 * c.BOARD_MAX_EXTENT_ONE_SIDE + 1 →
      axisScore anchor block centre ms d = 0) :
    estimateAxis c env anchor block centre ms = 2 * c.BOARD_MAX_EXTENT_ONE_SIDE + 1 := by
  obtain ⟨⟨r1, r2⟩, hbest⟩ := estimateAxis_spec c env anchor block centre ms hms hmax
  have h := (hbest (2 * c.BOARD_MAX_EXTENT_ONE_SIDE + 1) (by omega) (le_refl _)).2
  rw [hzero _ (by omega) (le_refl _), hzero _ r1 r2] at h
  have := h rfl
  omega

theorem axisScore_zero_of_case (maxExtent : Int) (anchor block : ℚ)
    (centre : MatchResult → Int) (ms : List MatchResult)
    (hcase : (∀ m ∈ ms, ∀ d, 2 ≤ d → d ≤ 2 * maxExtent + 1 →
        ¬ (0 < expectedPos anchor block d - (centre m : ℚ) ∧
          expectedPos anchor block d - (centre m : ℚ) < cropFactor * block)) ∨
      (∀ m ∈ ms, m.Score = 0)) :
    ∀ d, 2 ≤ d → d ≤ 2 * maxExtent + 1 → axisScore anchor block centre ms d = 0 := by
  intro d h1 h2
  apply axisScore_eq_zero
  intro m hm
  rcases hcase with hw | hz
  · exact Or.inr (hw m hm d h1 h2)
  · exact Or.inl (hz m hm)

/-- C20. With `BOARD_MAX_EXTENT_ONE_SIDE ≥ 1`, when an axis has at least one match but no
match lies in the acceptance window of any candidate dimension, or every match has zero
confidence, every candidate score is 0 and `getPossibleBoardSize` returns the largest
candidate `2*BOARD_MAX_EXTENT_ONE_SIDE+1` for that axis, not 0; `Run`, once it has an image
and a puzzle, does not return `(nil, false)` when both axes have at least one match. -/
theorem getPossibleBoardSize_all_scores_zero (c : Consts) (env : Env Img) (img : Option Img)
    (hmax : 1 ≤ c.BOARD_MAX_EXTENT_ONE_SIDE) :
    (xMatchesOf c env img ≠ [] →
      ((∀ m ∈ xMatchesOf c env img, ∀ d, 2 ≤ d → d ≤ 2 * c.BOARD_MAX_EXTENT_ONE_SIDE + 1 →
          ¬ (0 < expectedPos c.BOARD_CENTER_BLOCK_LT_Y c.BOARD_BLOCK_H d - (m.CenterY : ℚ) ∧
            expectedPos c.BOARD_CENTER_BLOCK_LT_Y c.BOARD_BLOCK_H d - (m.CenterY : ℚ) <
              cropFactor * c.BOARD_BLOCK_H)) ∨
        (∀ m ∈ xMatchesOf c env img, m.Score = 0)) →
      (∀ d, 2 ≤ d → d ≤ 2 * c.BOARD_MAX_EXTENT_ONE_SIDE + 1 →
        axisScore c.BOARD_CENTER_BLOCK_LT_Y c.BOARD_BLOCK_H (fun m => m.CenterY)
          (xMatchesOf c env img) d = 0) ∧
      (getPossibleBoardSize c env img).2 = 2 * c.BOARD_MAX_EXTENT_ONE_SIDE + 1 ∧
      (getPossibleBoardSize c env img).2 ≠ 0) ∧
    (yMatchesOf c env img ≠ [] →
      ((∀ m ∈ yMatchesOf c env img, ∀ d, 2 ≤ d → d ≤ 2 * c.BOARD_MAX_EXTENT_ONE_SIDE + 1 →
          ¬ (0 < expectedPos c.BOARD_CENTER_BLOCK_LT_X c.BOARD_BLOCK_W d - (m.CenterX : ℚ) ∧
            expectedPos c.BOARD_CENTER_BLOCK_LT_X c.BOARD_BLOCK_W d - (m.CenterX : ℚ) <
              cropFactor * c.BOARD_BLOCK_W)) ∨
        (∀ m ∈ yMatchesOf c env img, m.Score = 0)) →
      (∀ d, 2 ≤ d → d ≤ 2 * c.BOARD_MAX_EXTENT_ONE_SIDE + 1 →
        axisScore c.BOARD_CENTER_BLOCK_LT_X c.BOARD_BLOCK_W (fun m => m.CenterX)
          (yMatchesOf c env img) d = 0) ∧
      (getPossibleBoardSize c env img).1 = 2 * c.BOARD_MAX_EXTENT_ONE_SIDE + 1 ∧
      (getPossibleBoardSize c env img).1 ≠ 0) ∧
    (∀ (arg : CustomRecognitionArg Img) (tr : List Event) (i : Img), arg.Img = some i →
      (getAllPuzzleDesc c env arg.Img tr).1 ≠ [] →
      xMatchesOf c env
        (doEnsureTab c env arg.Img (getAllPuzzleDesc c env arg.Img tr).2).1 ≠ [] →
      yMatchesOf c env
        (doEnsureTab c env arg.Img (getAllPuzzleDesc c env arg.Img tr).2).1 ≠ [] →
      (Run c env arg tr).1 ≠ (none, false)) := by
  refine ⟨?_, ?_, ?_⟩
  · intro hx hcase
    have hz := axisScore_zero_of_case _ _ _ _ _ hcase
    have he := estimateAxis_all_zero c env _ _ _ _ hx hmax hz
    refine ⟨hz, he, ?_⟩
    have : (getPossibleBoardSize c env img).2 = 2 * c.BOARD_MAX_EXTENT_ONE_SIDE + 1 := he
    omega
  · intro hy hcase
    have hz := axisScore_zero_of_case _ _ _ _ _ hcase
    have he := estimateAxis_all_zero c env _ _ _ _ hy hmax hz
    refine ⟨hz, he, ?_⟩
    have : (getPossibleBoardSize c env img).1 = 2 * c.BOARD_MAX_EXTENT_ONE_SIDE + 1 := he
    omega
  · intro arg tr i himg hp hx hy hrun
    rcases (Run_at_geometry c env arg tr i himg hp).1 hrun with h | h
    · have := (estimateAxis_spec c env c.BOARD_CENTER_BLOCK_LT_X c.BOARD_BLOCK_W
        (fun m => m.CenterX) _ hy hmax).1.1
      have h0 : estimateAxis c env c.BOARD_CENTER_BLOCK_LT_X c.BOARD_BLOCK_W
        (fun m => m.CenterX) (yMatchesOf c env
          (doEnsureTab c env arg.Img (getAllPuzzleDesc c env arg.Img tr).2).1) = 0 := h
      omega
    · have := (estimateAxis_spec c env c.BOARD_CENTER_BLOCK_LT_Y c.BOARD_BLOCK_H
        (fun m => m.CenterY) _ hx hmax).1.1
      have h0 : estimateAxis c env c.BOARD_CENTER_BLOCK_LT_Y c.BOARD_BLOCK_H
        (fun m => m.CenterY) (xMatchesOf c env
          (doEnsureTab c env arg.Img (getAllPuzzleDesc c env arg.Img tr).2).1) = 0 := h
      omega

/-- Witness of C20: one marker far from every expected position on both axes of the sample
frame; both dimensions come out as 5, the largest candidate, and `Run` succeeds. -/
theorem getPossibleBoardSize_all_scores_zero_witness :
    getPossibleBoardSize sampleConsts sampleEnvStrayMatch (some 13) = (5, 5) ∧
      (getPossibleBoardSize sampleConsts sampleEnvStrayMatch (some 13)).2 =
        2 * sampleConsts.BOARD_MAX_EXTENT_ONE_SIDE + 1 ∧
      (Run sampleConsts sampleEnvStrayMatch sampleArg []).1.2 = true :=
  ⟨by decide!,
    ((getPossibleBoardSize_all_scores_zero sampleConsts sampleEnvStrayMatch (some 13)
      (by decide)).1 (by decide!) (Or.inl (by decide!))).2.1,
    by decide!⟩

end PuzzleSolver
